import Mathlib

/-!
# go-mailchimp: request pipeline, error model and batch encoder

A shallow embedding of `mailchimp.go` and `batch.go`, together with models of the
Go standard-library routines those files call (`strings.Split`, `fmt.Sprintf`,
`net/url`, `net/http.NewRequest`, `encoding/json`, `encoding/base64`), followed by
the theorems that settle the claims made about the program.  The library models
follow the Go 1.22 sources; `int` is taken to be 64 bits wide.
-/

namespace Mailchimp

/-! ## Go strings -/

/-- A Go `string` is a sequence of bytes.  A byte is written as the `Char` with the
same code (0..255), so ASCII text reads as itself and non-ASCII text stands for its
UTF-8 bytes. -/
abbrev GoString := List Char

/-- Byte range test `lo <= c && c <= hi`. -/
def inRange (lo hi c : Char) : Bool :=
  decide (lo.toNat ≤ c.toNat) && decide (c.toNat ≤ hi.toNat)

/-- ASCII letter test `'a' <= c && c <= 'z' || 'A' <= c && c <= 'Z'`. -/
def isLetter (c : Char) : Bool := inRange 'a' 'z' c || inRange 'A' 'Z' c

/-- ASCII digit test `'0' <= c && c <= '9'`. -/
def isDigit (c : Char) : Bool := inRange '0' '9' c

/-- Go `strings.Count(s, sep)` for a one-byte separator. -/
def countByte (sep : Char) : GoString → Nat
  | [] => 0
  | c :: cs => (if c = sep then 1 else 0) + countByte sep cs

/-- Go `strings.Split(s, sep)` for a one-byte separator: the pieces between
consecutive separators, `strings.Count(s, sep) + 1` of them. -/
def Split (sep : Char) : GoString → List GoString
  | [] => [[]]
  | c :: cs =>
    if c = sep then [] :: Split sep cs
    else
      match Split sep cs with
      | [] => [[c]]
      | p :: ps => (c :: p) :: ps

/-- Go `strings.Cut(s, sep)` for a one-byte separator: the text before the first
separator, the text after it, and whether a separator was found. -/
def cutByte (sep : Char) : GoString → GoString × GoString × Bool
  | [] => ([], [], false)
  | c :: cs =>
    if c = sep then ([], cs, true)
    else
      let r := cutByte sep cs
      (c :: r.1, r.2.1, r.2.2)

/-- Go `strings.Index(s, sep)` for a one-byte separator (`none` for -1). -/
def indexByte (sep : Char) : GoString → Option Nat
  | [] => none
  | c :: cs => if c = sep then some 0 else (indexByte sep cs).map (· + 1)

/-- Go `strings.LastIndex(s, sep)` for a one-byte separator (`none` for -1). -/
def lastIndexByte (sep : Char) : GoString → Option Nat
  | [] => none
  | c :: cs =>
    match lastIndexByte sep cs with
    | some i => some (i + 1)
    | none => if c = sep then some 0 else none

/-- Go `strings.Index(s, sub)` for an arbitrary substring (`none` for -1). -/
def indexOfSub (sub : GoString) : GoString → Option Nat
  | [] => if sub = [] then some 0 else none
  | c :: cs =>
    if sub.isPrefixOf (c :: cs) then some 0 else (indexOfSub sub cs).map (· + 1)

/-- ASCII lower-casing, the effect of `strings.ToLower` on ASCII text. -/
def toLowerASCII (s : GoString) : GoString :=
  s.map fun c => if inRange 'A' 'Z' c then Char.ofNat (c.toNat + 32) else c

/-! ## fmt.Sprintf -/

/-- An operand of `fmt.Sprintf`. -/
inductive FmtArg where
  | str (s : GoString)
  | int (n : Int)

/-- Digit character of a value below ten. -/
def digitChar (d : Nat) : Char := Char.ofNat (48 + d)

/-- Decimal digits of a natural number, most significant first. -/
def natDigitsAux : Nat → Nat → GoString → GoString
  | 0, _, acc => acc
  | fuel + 1, n, acc =>
    if n < 10 then digitChar n :: acc
    else natDigitsAux fuel (n / 10) (digitChar (n % 10) :: acc)

/-- Decimal rendering of a natural number. -/
def fmtNat (n : Nat) : GoString := natDigitsAux (n + 1) n []

/-- Decimal rendering of an integer, the `%d` verb. -/
def fmtInt (n : Int) : GoString :=
  if n < 0 then '-' :: fmtNat n.natAbs else fmtNat n.natAbs

/-- Go `fmt.Sprintf` for the verbs the program uses: `%d` with an integer operand
and `%s` with a string operand; every other byte of the format is copied. -/
def Sprintf : GoString → List FmtArg → GoString
  | [], _ => []
  | '%' :: 'd' :: rest, FmtArg.int n :: args => fmtInt n ++ Sprintf rest args
  | '%' :: 's' :: rest, FmtArg.str s :: args => s ++ Sprintf rest args
  | c :: rest, args => c :: Sprintf rest args

/-! ## Errors -/

/-- ErrorResponse of `mailchimp.go`: the error body reported by the remote API.
The field `Type` is written `Type_`. -/
structure ErrorResponse where
  Type_ : GoString
  Title : GoString
  Status : Int
  Detail : GoString
  deriving DecidableEq, Repr

/-- A Go `error` value: an `errors.New` string (also used for the errors of library
routines), or a pointer to an `ErrorResponse`. -/
inductive GoError where
  | errorString (msg : GoString)
  | errorResponse (e : ErrorResponse)
  deriving DecidableEq, Repr

deriving instance DecidableEq for Except

/-! ## net/url -/

/-- The escaping modes of `net/url`. -/
inductive Encoding where
  | encodePath
  | encodePathSegment
  | encodeHost
  | encodeZone
  | encodeUserPassword
  | encodeQueryComponent
  | encodeFragment
  deriving DecidableEq, Repr

/-- Go `ishex`. -/
def ishex (c : Char) : Bool := inRange '0' '9' c || inRange 'a' 'f' c || inRange 'A' 'F' c

/-- Go `unhex`. -/
def unhex (c : Char) : Nat :=
  if inRange '0' '9' c then c.toNat - 48
  else if inRange 'a' 'f' c then c.toNat - 97 + 10
  else if inRange 'A' 'F' c then c.toNat - 65 + 10
  else 0

/-- The apostrophe byte. -/
def apostrophe : Char := Char.ofNat 39

/-- Go `shouldEscape(c, mode)` of `net/url`. -/
def shouldEscape (c : Char) (mode : Encoding) : Bool :=
  if isLetter c || isDigit c then false
  else if (mode = Encoding.encodeHost || mode = Encoding.encodeZone) &&
      (['!', '$', '&', apostrophe, '(', ')', '*', '+', ',', ';', '=', ':', '[', ']',
        '<', '>', '"'].contains c) then false
  else if ['-', '_', '.', '~'].contains c then false
  else if ['$', '&', '+', ',', '/', ':', ';', '=', '?', '@'].contains c &&
      mode = Encoding.encodePath then c == '?'
  else if ['$', '&', '+', ',', '/', ':', ';', '=', '?', '@'].contains c &&
      mode = Encoding.encodePathSegment then c == '/' || c == ';' || c == ',' || c == '?'
  else if ['$', '&', '+', ',', '/', ':', ';', '=', '?', '@'].contains c &&
      mode = Encoding.encodeUserPassword then c == '@' || c == '/' || c == '?' || c == ':'
  else if ['$', '&', '+', ',', '/', ':', ';', '=', '?', '@'].contains c &&
      mode = Encoding.encodeQueryComponent then true
  else if ['$', '&', '+', ',', '/', ':', ';', '=', '?', '@'].contains c &&
      mode = Encoding.encodeFragment then false
  else if mode = Encoding.encodeFragment && ['!', '(', ')', '*'].contains c then false
  else true

/-- First pass of Go `unescape`: every `%` starts a well-formed escape that the
mode admits, and in host and zone mode no ASCII byte needs escaping.  Returns
whether the text is acceptable. -/
def unescapeCheck (mode : Encoding) : GoString → Bool
  | [] => true
  | '%' :: a :: b :: rest =>
    if !(ishex a && ishex b) then false
    else if mode = Encoding.encodeHost && decide (unhex a < 8) && !(a = '2' && b = '5') then false
    else if mode = Encoding.encodeZone && !(a = '2' && b = '5') &&
        !(unhex a * 16 + unhex b = 32) &&
        shouldEscape (Char.ofNat (unhex a * 16 + unhex b)) Encoding.encodeHost then false
    else unescapeCheck mode rest
  | '%' :: _ => false
  | c :: rest =>
    if (mode = Encoding.encodeHost || mode = Encoding.encodeZone) && decide (c.toNat < 128) &&
        shouldEscape c Encoding.encodeHost then false
    else unescapeCheck mode rest

/-- Second pass of Go `unescape`: replace each `%XX` by its byte and, in query
mode, each `+` by a space. -/
def unescapeDecode (mode : Encoding) : GoString → GoString
  | [] => []
  | '%' :: a :: b :: rest => Char.ofNat (unhex a * 16 + unhex b) :: unescapeDecode mode rest
  | c :: rest =>
    (if c = '+' && mode = Encoding.encodeQueryComponent then ' ' else c) :: unescapeDecode mode rest

/-- Go `unescape(s, mode)` of `net/url`. -/
def unescape (s : GoString) (mode : Encoding) : Except GoError GoString :=
  if unescapeCheck mode s then Except.ok (unescapeDecode mode s)
  else Except.error (GoError.errorString "net/url: invalid URL escape or host character".toList)

/-- Upper-case hexadecimal digit, Go `upperhex[d]`. -/
def upperhex (d : Nat) : Char := if d < 10 then Char.ofNat (48 + d) else Char.ofNat (55 + d)

/-- Go `escape(s, mode)` of `net/url`. -/
def escape (s : GoString) (mode : Encoding) : GoString :=
  s.flatMap fun c =>
    if c = ' ' && mode = Encoding.encodeQueryComponent then ['+']
    else if shouldEscape c mode then ['%', upperhex (c.toNat / 16), upperhex (c.toNat % 16)]
    else [c]

/-- Go `url.Userinfo`. -/
structure Userinfo where
  username : GoString
  password : GoString
  passwordSet : Bool
  deriving DecidableEq, Repr

/-- Go `url.URL`. -/
structure URL where
  Scheme : GoString := []
  Opaque : GoString := []
  User : Option Userinfo := none
  Host : GoString := []
  Path : GoString := []
  RawPath : GoString := []
  OmitHost : Bool := false
  ForceQuery : Bool := false
  RawQuery : GoString := []
  Fragment : GoString := []
  RawFragment : GoString := []
  deriving DecidableEq, Repr

/-- Go `stringContainsCTLByte`. -/
def stringContainsCTLByte (s : GoString) : Bool :=
  s.any fun b => decide (b.toNat < 32) || decide (b.toNat = 127)

/-- Loop of Go `getScheme`: `i` is the index of the next byte, `acc` the bytes
already scanned (reversed), `raw` the whole input. -/
def getSchemeLoop (raw : GoString) : Nat → GoString → GoString → Except GoError (GoString × GoString)
  | _, _, [] => Except.ok ([], raw)
  | i, acc, c :: cs =>
    if isLetter c then getSchemeLoop raw (i + 1) (c :: acc) cs
    else if isDigit c || c = '+' || c = '-' || c = '.' then
      if i = 0 then Except.ok ([], raw) else getSchemeLoop raw (i + 1) (c :: acc) cs
    else if c = ':' then
      if i = 0 then Except.error (GoError.errorString "missing protocol scheme".toList)
      else Except.ok (acc.reverse, cs)
    else Except.ok ([], raw)

/-- Go `getScheme(rawURL)`: the scheme and the text after its colon. -/
def getScheme (raw : GoString) : Except GoError (GoString × GoString) :=
  getSchemeLoop raw 0 [] raw

/-- Go `validOptionalPort`. -/
def validOptionalPort : GoString → Bool
  | [] => true
  | c :: rest => c = ':' && rest.all isDigit

/-- Go `validUserinfo`. -/
def validUserinfo (s : GoString) : Bool :=
  s.all fun r => isLetter r || isDigit r ||
    ['-', '.', '_', ':', '~', '!', '$', '&', apostrophe, '(', ')', '*', '+', ',', ';', '=',
      '%', '@'].contains r

/-- Go `parseHost`. -/
def parseHost (host : GoString) : Except GoError GoString :=
  if ['['].isPrefixOf host then
    match lastIndexByte ']' host with
    | none => Except.error (GoError.errorString "missing ']' in host".toList)
    | some i =>
      if !validOptionalPort (host.drop (i + 1)) then
        Except.error (GoError.errorString "invalid port after host".toList)
      else
        match indexOfSub "%25".toList (host.take i) with
        | some zone => do
          let host1 ← unescape (host.take zone) Encoding.encodeHost
          let host2 ← unescape ((host.take i).drop zone) Encoding.encodeZone
          let host3 ← unescape (host.drop i) Encoding.encodeHost
          pure (host1 ++ host2 ++ host3)
        | none => unescape host Encoding.encodeHost
  else
    match lastIndexByte ':' host with
    | some i =>
      if !validOptionalPort (host.drop i) then
        Except.error (GoError.errorString "invalid port after host".toList)
      else unescape host Encoding.encodeHost
    | none => unescape host Encoding.encodeHost

/-- Go `parseAuthority`. -/
def parseAuthority (authority : GoString) : Except GoError (Option Userinfo × GoString) :=
  match lastIndexByte '@' authority with
  | none => do
    let host ← parseHost authority
    pure (none, host)
  | some i => do
    let host ← parseHost (authority.drop (i + 1))
    let userinfo := authority.take i
    if !validUserinfo userinfo then
      throw (GoError.errorString "net/url: invalid userinfo".toList)
    else if !userinfo.contains ':' then do
      let u ← unescape userinfo Encoding.encodeUserPassword
      pure (some { username := u, password := [], passwordSet := false }, host)
    else do
      let r := cutByte ':' userinfo
      let username ← unescape r.1 Encoding.encodeUserPassword
      let password ← unescape r.2.1 Encoding.encodeUserPassword
      pure (some { username := username, password := password, passwordSet := true }, host)

/-- Go `(*URL).setPath`. -/
def URL.setPath (u : URL) (p : GoString) : Except GoError URL := do
  let path ← unescape p Encoding.encodePath
  if p = escape path Encoding.encodePath then pure { u with Path := path, RawPath := [] }
  else pure { u with Path := path, RawPath := p }

/-- Go `(*URL).setFragment`. -/
def URL.setFragment (u : URL) (f : GoString) : Except GoError URL := do
  let frag ← unescape f Encoding.encodeFragment
  if f = escape frag Encoding.encodeFragment then pure { u with Fragment := frag, RawFragment := [] }
  else pure { u with Fragment := frag, RawFragment := f }

/-- The query step of Go `parse`: whether the text ends in its only `?`
(`ForceQuery`), the text before the query, and the query. -/
def splitQuery (rest : GoString) : Bool × GoString × GoString :=
  if rest.getLast? = some '?' && countByte '?' rest = 1 then (true, rest.dropLast, [])
  else (false, (cutByte '?' rest).1, (cutByte '?' rest).2.1)

/-- The authority step of Go `parse`: the text after `//` up to the first slash, and
the text from that slash on. -/
def splitAuthority (a : GoString) : GoString × GoString :=
  match indexByte '/' a with
  | some i => (a.take i, a.drop i)
  | none => (a, [])

/-- The part of Go `parse` after scheme and query have been split off, with
`viaRequest = false`: opaque text, authority and path. -/
def parseRest (url : URL) (rest : GoString) : Except GoError URL :=
  if !(['/'].isPrefixOf rest) && url.Scheme ≠ [] then
    pure { url with Opaque := rest }
  else if !(['/'].isPrefixOf rest) && (cutByte '/' rest).1.contains ':' then
    throw (GoError.errorString "first path segment in URL cannot contain colon".toList)
  else if (url.Scheme ≠ [] || !(['/', '/', '/'].isPrefixOf rest)) &&
      ['/', '/'].isPrefixOf rest then do
    let ar := splitAuthority (rest.drop 2)
    let uh ← parseAuthority ar.1
    URL.setPath { url with User := uh.1, Host := uh.2 } ar.2
  else if url.Scheme ≠ [] && ['/'].isPrefixOf rest then
    URL.setPath { url with OmitHost := true } rest
  else URL.setPath url rest

/-- Go `parse(rawURL, viaRequest)` of `net/url` with `viaRequest = false`, the only
way the program reaches it. -/
def parseNoFragment (rawURL : GoString) : Except GoError URL :=
  if stringContainsCTLByte rawURL then
    Except.error (GoError.errorString "net/url: invalid control character in URL".toList)
  else if rawURL = ['*'] then Except.ok { Path := ['*'] }
  else do
    let sr ← getScheme rawURL
    let q := splitQuery sr.2
    parseRest { Scheme := toLowerASCII sr.1, ForceQuery := q.1, RawQuery := q.2.2 } q.2.1

/-- Go `url.Parse(rawURL)`. -/
def Parse (rawURL : GoString) : Except GoError URL := do
  let r := cutByte '#' rawURL
  let url ← parseNoFragment r.1
  if r.2.1 = [] then pure url else URL.setFragment url r.2.1

/-- Go `validEncoded(s, mode)`. -/
def validEncoded (s : GoString) (mode : Encoding) : Bool :=
  s.all fun c =>
    ['!', '$', '&', apostrophe, '(', ')', '*', '+', ',', ';', '=', ':', '@', '[', ']',
      '%'].contains c || !shouldEscape c mode

/-- The test `p, err := unescape(raw, mode); err == nil && p == want`. -/
def unescapesTo (raw : GoString) (mode : Encoding) (want : GoString) : Bool :=
  match unescape raw mode with
  | Except.ok p => p = want
  | Except.error _ => false

/-- Go `(*URL).EscapedPath`. -/
def URL.EscapedPath (u : URL) : GoString :=
  if u.RawPath ≠ [] && validEncoded u.RawPath Encoding.encodePath &&
      unescapesTo u.RawPath Encoding.encodePath u.Path then u.RawPath
  else if u.Path = ['*'] then ['*']
  else escape u.Path Encoding.encodePath

/-- Go `(*URL).EscapedFragment`. -/
def URL.EscapedFragment (u : URL) : GoString :=
  if u.RawFragment ≠ [] && validEncoded u.RawFragment Encoding.encodeFragment &&
      unescapesTo u.RawFragment Encoding.encodeFragment u.Fragment then
    u.RawFragment
  else escape u.Fragment Encoding.encodeFragment

/-- Go `(*Userinfo).String`. -/
def Userinfo.String (u : Userinfo) : GoString :=
  escape u.username Encoding.encodeUserPassword ++
    (if u.passwordSet then ':' :: escape u.password Encoding.encodeUserPassword else [])

/-- The authority part written by `(*URL).String`. -/
def URL.authorityString (u : URL) : GoString :=
  if u.Scheme ≠ [] || u.Host ≠ [] || u.User.isSome then
    if u.OmitHost && u.Host = [] && u.User.isNone then []
    else
      (if u.Host ≠ [] || u.Path ≠ [] || u.User.isSome then ['/', '/'] else []) ++
      (match u.User with
        | some ui => ui.String ++ ['@']
        | none => []) ++
      (if u.Host ≠ [] then escape u.Host Encoding.encodeHost else [])
  else []

/-- Go `(*URL).String`. -/
def URL.String (u : URL) : GoString :=
  let scheme : GoString := if u.Scheme ≠ [] then u.Scheme ++ [':'] else []
  let body : GoString :=
    if u.Opaque ≠ [] then scheme ++ u.Opaque
    else
      let buf := scheme ++ u.authorityString
      let path := u.EscapedPath
      let buf := if path ≠ [] && path.head? ≠ some '/' && u.Host ≠ [] then buf ++ ['/'] else buf
      let buf := if buf = [] && (cutByte '/' path).1.contains ':' then buf ++ ['.', '/'] else buf
      buf ++ path
  let query : GoString := if u.ForceQuery || u.RawQuery ≠ [] then '?' :: u.RawQuery else []
  let frag : GoString := if u.Fragment ≠ [] then '#' :: u.EscapedFragment else []
  body ++ query ++ frag

/-! ## The client of `mailchimp.go` -/

/-- A response body: either all of its bytes can be read, or reading it fails
(modelled as failing before any byte is delivered). -/
inductive Body where
  | bytes (data : GoString)
  | unreadable (err : GoError)
  deriving DecidableEq, Repr

/-- The fields of Go `http.Request` that the program sets. -/
structure Request where
  Method : GoString
  URL : URL
  Host : GoString
  Header : List (GoString × GoString)
  Body : Option GoString
  deriving DecidableEq, Repr

/-- The fields of Go `http.Response` that the program reads. -/
structure Response where
  StatusCode : Int
  Body : Body
  deriving DecidableEq, Repr

/-- The transport, Go `(*http.Client).Do`: a response or a transport error. -/
abbrev HTTPClient := Request → Except GoError Response

/-- Client of `mailchimp.go`.  `BaseURL` is a pointer and may be nil. -/
structure Client where
  client : HTTPClient
  BaseURL : Option URL
  DC : GoString
  APIKey : GoString

/-- The error `NewClient` reports for a malformed key. -/
def keyFormatError : GoError :=
  GoError.errorString "Mailchimp API Key must be formatted like: xyz-zys".toList

/-- NewClient of `mailchimp.go`.  `DefaultClient` stands for `http.DefaultClient`;
the result is the pair (client, nil) or (nil, error). -/
def NewClient (DefaultClient : HTTPClient) (apiKey : GoString) (httpClient : Option HTTPClient) :
    Except GoError Client :=
  if (Split '-' apiKey).length ≠ 2 then Except.error keyFormatError
  else
    let dc := (Split '-' apiKey).getD 1 []
    let httpClient := match httpClient with
      | none => DefaultClient
      | some h => h
    let baseURL := (Parse (Sprintf "https://%s.api.mailchimp.com/3.0".toList [FmtArg.str dc])).toOption
    Except.ok { APIKey := apiKey, client := httpClient, DC := dc, BaseURL := baseURL }

/-- A transport that refuses every request, used where a concrete transport is needed. -/
def refusingTransport : HTTPClient :=
  fun _ => Except.error (GoError.errorString "connection refused".toList)

/-! ## encoding/base64 -/

/-- The alphabet of `base64.StdEncoding`. -/
def b64Char (n : Nat) : Char :=
  if n < 26 then Char.ofNat (65 + n)
  else if n < 52 then Char.ofNat (97 + (n - 26))
  else if n < 62 then Char.ofNat (48 + (n - 52))
  else if n = 62 then '+'
  else '/'

/-- Go `base64.StdEncoding.EncodeToString`: three bytes become four characters, the
last group is padded with `=`. -/
def base64Encode : GoString → GoString
  | [] => []
  | [a] =>
    [b64Char (a.toNat / 4 % 64), b64Char (a.toNat % 4 * 16), '=', '=']
  | [a, b] =>
    [b64Char (a.toNat / 4 % 64), b64Char (a.toNat % 4 * 16 + b.toNat / 16 % 16),
      b64Char (b.toNat % 16 * 4), '=']
  | a :: b :: c :: rest =>
    [b64Char (a.toNat / 4 % 64), b64Char (a.toNat % 4 * 16 + b.toNat / 16 % 16),
      b64Char (b.toNat % 16 * 4 + c.toNat / 64 % 4), b64Char (c.toNat % 64)] ++ base64Encode rest

/-! ## encoding/json: encoding -/

/-- A Go value handed to `encoding/json` as an `interface{}`: the shapes the encoder
distinguishes.  A struct is given by its fields in declaration order under their
JSON names, a map by its entries in key order; `unsupported` stands for the values
the encoder rejects (channels, functions, complex numbers).  Floating-point values
are left out. -/
inductive GoValue where
  | nil
  | bool (b : Bool)
  | int (n : Int)
  | string (s : GoString)
  | bytes (b : GoString)
  | slice (xs : List GoValue)
  | fields (kvs : List (GoString × GoValue))
  | unsupported

/-- Between two bytes `lo` and `hi`, as numbers. -/
def byteIn (lo hi : Nat) (c : Char) : Bool := decide (lo ≤ c.toNat) && decide (c.toNat ≤ hi)

/-- Go `utf8.DecodeRune` as far as its size result: the length in bytes of the
well-formed UTF-8 sequence at the head of a text that starts with a byte of 0x80 or
more, or 0 when the head is not well formed (Go then reports `RuneError` with
size 1). -/
def utf8Size : GoString → Nat
  | a :: b :: rest =>
    if byteIn 0xC2 0xDF a then (if byteIn 0x80 0xBF b then 2 else 0)
    else
      match rest with
      | c :: rest2 =>
        if a.toNat = 0xE0 then (if byteIn 0xA0 0xBF b && byteIn 0x80 0xBF c then 3 else 0)
        else if byteIn 0xE1 0xEC a || byteIn 0xEE 0xEF a then
          (if byteIn 0x80 0xBF b && byteIn 0x80 0xBF c then 3 else 0)
        else if a.toNat = 0xED then (if byteIn 0x80 0x9F b && byteIn 0x80 0xBF c then 3 else 0)
        else
          match rest2 with
          | d :: _ =>
            if a.toNat = 0xF0 then
              (if byteIn 0x90 0xBF b && byteIn 0x80 0xBF c && byteIn 0x80 0xBF d then 4 else 0)
            else if byteIn 0xF1 0xF3 a then
              (if byteIn 0x80 0xBF b && byteIn 0x80 0xBF c && byteIn 0x80 0xBF d then 4 else 0)
            else if a.toNat = 0xF4 then
              (if byteIn 0x80 0x8F b && byteIn 0x80 0xBF c && byteIn 0x80 0xBF d then 4 else 0)
            else 0
          | [] => 0
      | [] => 0
  | _ => 0

/-- Lower-case hexadecimal digit, Go `hex[d]` of `encoding/json`. -/
def lowerhex (d : Nat) : Char := if d < 10 then Char.ofNat (48 + d) else Char.ofNat (87 + d)

/-- The escape `encoding/json` writes for an ASCII byte inside a string, with HTML
escaping on (the default of `Marshal` and `Encoder`). -/
def jsonEscapeASCII (b : Char) : GoString :=
  if b = '\\' || b = '"' then ['\\', b]
  else if b.toNat = 8 then ['\\', 'b']
  else if b.toNat = 12 then ['\\', 'f']
  else if b = '\n' then ['\\', 'n']
  else if b = '\r' then ['\\', 'r']
  else if b = '\t' then ['\\', 't']
  else if decide (b.toNat < 32) || b = '<' || b = '>' || b = '&' then
    ['\\', 'u', '0', '0', lowerhex (b.toNat / 16), lowerhex (b.toNat % 16)]
  else [b]

/-- The loop of Go `appendString`.  `skip` counts the remaining bytes of a rune whose
first byte was already handled; they are copied when `emit` holds and dropped
otherwise. -/
def appendStringLoop : Nat → Bool → GoString → GoString
  | _, _, [] => []
  | skip + 1, emit, c :: rest => (if emit then [c] else []) ++ appendStringLoop skip emit rest
  | 0, _, c :: rest =>
    if c.toNat < 128 then jsonEscapeASCII c ++ appendStringLoop 0 true rest
    else
      match utf8Size (c :: rest) with
      | 0 => "\\ufffd".toList ++ appendStringLoop 0 true rest
      | n + 1 =>
        if c.toNat = 0xE2 && rest.head? = some (Char.ofNat 0x80) &&
            ((rest.drop 1).head? = some (Char.ofNat 0xA8) ||
             (rest.drop 1).head? = some (Char.ofNat 0xA9)) then
          ['\\', 'u', '2', '0', '2', (if (rest.drop 1).head? = some (Char.ofNat 0xA8) then '8' else '9')]
            ++ appendStringLoop n false rest
        else c :: appendStringLoop n true rest

/-- A Go string as a JSON string literal, Go `appendString(dst, s, true)`. -/
def encodeString (s : GoString) : GoString := '"' :: appendStringLoop 0 true s ++ ['"']

mutual
/-- The JSON text of a Go value, Go `json.Marshal`. -/
def Marshal : GoValue → Except GoError GoString
  | GoValue.nil => Except.ok "null".toList
  | GoValue.bool b => Except.ok (if b then "true".toList else "false".toList)
  | GoValue.int n => Except.ok (fmtInt n)
  | GoValue.string s => Except.ok (encodeString s)
  | GoValue.bytes b => Except.ok (encodeString (base64Encode b))
  | GoValue.slice xs => (marshalElems xs).map fun body => '[' :: body ++ [']']
  | GoValue.fields kvs => (marshalFields kvs).map fun body => '\x7b' :: body ++ ['\x7d']
  | GoValue.unsupported => Except.error (GoError.errorString "json: unsupported type".toList)
/-- The elements of a JSON array, separated by commas. -/
def marshalElems : List GoValue → Except GoError GoString
  | [] => Except.ok []
  | [x] => Marshal x
  | x :: y :: rest =>
    match Marshal x with
    | Except.error e => Except.error e
    | Except.ok t => (marshalElems (y :: rest)).map fun more => t ++ ',' :: more
/-- The members of a JSON object, separated by commas. -/
def marshalFields : List (GoString × GoValue) → Except GoError GoString
  | [] => Except.ok []
  | [(k, v)] => (Marshal v).map fun t => encodeString k ++ ':' :: t
  | (k, v) :: kv2 :: rest =>
    match Marshal v with
    | Except.error e => Except.error e
    | Except.ok t => (marshalFields (kv2 :: rest)).map fun more => encodeString k ++ ':' :: t ++ ',' :: more
end

/-- Go `json.NewEncoder(buf).Encode(v)`: the JSON text followed by a newline. -/
def Encode (v : GoValue) : Except GoError GoString := (Marshal v).map fun t => t ++ ['\n']

/-! ## encoding/json: decoding -/

/-- A decoded JSON value.  Go stores it in an `interface{}`: an object as a map, an
array as a slice, a number as a `float64`; the tree keeps the number as the literal
that was read and the members of an object in the order read. -/
inductive JSON where
  | null
  | bool (b : Bool)
  | number (lit : GoString)
  | string (s : GoString)
  | array (xs : List JSON)
  | object (kvs : List (GoString × JSON))

/-- Go `isSpace` of `encoding/json`. -/
def isSpace (c : Char) : Bool := c = ' ' || c = '\t' || c = '\r' || c = '\n'

/-- Drop leading JSON white space. -/
def skipWs : GoString → GoString
  | [] => []
  | c :: cs => if isSpace c then skipWs cs else c :: cs

/-- The longest run of digits at the head of a text, and what follows it. -/
def takeDigits : GoString → GoString × GoString
  | [] => ([], [])
  | c :: cs =>
    if isDigit c then ((c :: (takeDigits cs).1), (takeDigits cs).2) else ([], c :: cs)

/-- The integer part of a JSON number: `0`, or a non-zero digit and more digits. -/
def scanIntPart : GoString → Option (GoString × GoString)
  | [] => none
  | c :: cs =>
    if c = '0' then some (['0'], cs)
    else if inRange '1' '9' c then some (c :: (takeDigits cs).1, (takeDigits cs).2)
    else none

/-- The optional fraction of a JSON number: a dot and at least one digit. -/
def scanFraction : GoString → Option (GoString × GoString)
  | '.' :: cs => if (takeDigits cs).1 = [] then none else some ('.' :: (takeDigits cs).1, (takeDigits cs).2)
  | s => some ([], s)

/-- The optional exponent of a JSON number: `e` or `E`, an optional sign and at
least one digit. -/
def scanExponent : GoString → Option (GoString × GoString)
  | [] => some ([], [])
  | e :: cs =>
    if e = 'e' || e = 'E' then
      match cs with
      | [] => none
      | sg :: ds =>
        if sg = '+' || sg = '-' then
          (if (takeDigits ds).1 = [] then none
           else some (e :: sg :: (takeDigits ds).1, (takeDigits ds).2))
        else
          (if (takeDigits cs).1 = [] then none
           else some (e :: (takeDigits cs).1, (takeDigits cs).2))
    else some ([], e :: cs)

/-- A JSON number literal at the head of a text, and what follows it. -/
def scanNumber (s : GoString) : Option (GoString × GoString) := do
  let sign : GoString := if ['-'].isPrefixOf s then ['-'] else []
  let ip ← scanIntPart (s.drop sign.length)
  let fr ← scanFraction ip.2
  let ex ← scanExponent fr.2
  pure (sign ++ ip.1 ++ fr.1 ++ ex.1, ex.2)

/-- Go `utf8.EncodeRune`: the UTF-8 bytes of a code point; surrogates and values
beyond U+10FFFF become U+FFFD. -/
def utf8Encode (r : Nat) : GoString :=
  if r < 0x80 then [Char.ofNat r]
  else if r < 0x800 then [Char.ofNat (0xC0 + r / 64), Char.ofNat (0x80 + r % 64)]
  else if (0xD800 ≤ r ∧ r < 0xE000) ∨ 0x10FFFF < r then
    [Char.ofNat 0xEF, Char.ofNat 0xBF, Char.ofNat 0xBD]
  else if r < 0x10000 then
    [Char.ofNat (0xE0 + r / 4096), Char.ofNat (0x80 + r / 64 % 64), Char.ofNat (0x80 + r % 64)]
  else
    [Char.ofNat (0xF0 + r / 262144), Char.ofNat (0x80 + r / 4096 % 64),
      Char.ofNat (0x80 + r / 64 % 64), Char.ofNat (0x80 + r % 64)]

/-- Go `getu4`: the value of a `\uXXXX` escape at the head of a text. -/
def getu4 : GoString → Option Nat
  | '\\' :: 'u' :: a :: b :: c :: d :: _ =>
    if ishex a && ishex b && ishex c && ishex d then
      some (unhex a * 4096 + unhex b * 256 + unhex c * 16 + unhex d)
    else none
  | _ => none

/-- The byte a one-letter JSON escape stands for. -/
def simpleEscape (c : Char) : Option Char :=
  if c = '"' || c = '\\' || c = '/' then some c
  else if c = 'b' then some (Char.ofNat 8)
  else if c = 'f' then some (Char.ofNat 12)
  else if c = 'n' then some '\n'
  else if c = 'r' then some '\r'
  else if c = 't' then some '\t'
  else none

/-- The text of a JSON string literal after its opening quote: the decoded bytes (Go
`unquote`) and what follows the closing quote.  The fuel bounds the number of
steps; the length of the text plus one is enough. -/
def scanString : Nat → GoString → Option (GoString × GoString)
  | 0, _ => none
  | _ + 1, [] => none
  | fuel + 1, c :: cs =>
    if c = '"' then some ([], cs)
    else if c = '\\' then
      match cs with
      | [] => none
      | e :: es =>
        if e = 'u' then
          match getu4 (c :: cs) with
          | none => none
          | some rr =>
            if 0xD800 ≤ rr ∧ rr < 0xE000 then
              match getu4 (cs.drop 5) with
              | some rr1 =>
                if rr < 0xDC00 ∧ 0xDC00 ≤ rr1 ∧ rr1 < 0xE000 then
                  (scanString fuel (cs.drop 11)).map fun r =>
                    (utf8Encode ((rr - 0xD800) * 1024 + (rr1 - 0xDC00) + 0x10000) ++ r.1, r.2)
                else (scanString fuel (cs.drop 5)).map fun r => (utf8Encode 0xFFFD ++ r.1, r.2)
              | none => (scanString fuel (cs.drop 5)).map fun r => (utf8Encode 0xFFFD ++ r.1, r.2)
            else (scanString fuel (cs.drop 5)).map fun r => (utf8Encode rr ++ r.1, r.2)
        else
          match simpleEscape e with
          | none => none
          | some b => (scanString fuel es).map fun r => (b :: r.1, r.2)
    else if c.toNat < 32 then none
    else if c.toNat < 128 then (scanString fuel cs).map fun r => (c :: r.1, r.2)
    else
      match utf8Size (c :: cs) with
      | 0 => (scanString fuel cs).map fun r => (utf8Encode 0xFFFD ++ r.1, r.2)
      | n + 1 => (scanString fuel (cs.drop n)).map fun r => (c :: cs.take n ++ r.1, r.2)

/-- A JSON string literal after its opening quote. -/
def scanStringLit (s : GoString) : Option (GoString × GoString) := scanString (s.length + 1) s

/-- The nesting limit of the Go scanner. -/
def maxNestingDepth : Nat := 10000

mutual
/-- One JSON value at the head of a text (white space already skipped), and what
follows it.  `depth` counts the enclosing arrays and objects. -/
def parseValue : Nat → Nat → GoString → Option (JSON × GoString)
  | 0, _, _ => none
  | _ + 1, _, [] => none
  | fuel + 1, depth, c :: cs =>
    if c = '\x7b' then
      if depth + 1 > maxNestingDepth then none
      else
        match skipWs cs with
        | [] => none
        | d :: ds =>
          if d = '\x7d' then some (JSON.object [], ds)
          else (parseMembers fuel (depth + 1) (d :: ds)).map fun r => (JSON.object r.1, r.2)
    else if c = '[' then
      if depth + 1 > maxNestingDepth then none
      else
        match skipWs cs with
        | [] => none
        | d :: ds =>
          if d = ']' then some (JSON.array [], ds)
          else (parseElems fuel (depth + 1) (d :: ds)).map fun r => (JSON.array r.1, r.2)
    else if c = '"' then (scanStringLit cs).map fun r => (JSON.string r.1, r.2)
    else if "true".toList.isPrefixOf (c :: cs) then some (JSON.bool true, cs.drop 3)
    else if "false".toList.isPrefixOf (c :: cs) then some (JSON.bool false, cs.drop 4)
    else if "null".toList.isPrefixOf (c :: cs) then some (JSON.null, cs.drop 3)
    else (scanNumber (c :: cs)).map fun r => (JSON.number r.1, r.2)
/-- The elements of a non-empty array up to its closing bracket. -/
def parseElems : Nat → Nat → GoString → Option (List JSON × GoString)
  | 0, _, _ => none
  | fuel + 1, depth, s =>
    match parseValue fuel depth s with
    | none => none
    | some (v, r) =>
      match skipWs r with
      | [] => none
      | d :: ds =>
        if d = ',' then (parseElems fuel depth (skipWs ds)).map fun m => (v :: m.1, m.2)
        else if d = ']' then some ([v], ds)
        else none
/-- The members of a non-empty object up to its closing brace. -/
def parseMembers : Nat → Nat → GoString → Option (List (GoString × JSON) × GoString)
  | 0, _, _ => none
  | _ + 1, _, [] => none
  | fuel + 1, depth, q :: ks =>
    if q ≠ '"' then none
    else
      match scanStringLit ks with
      | none => none
      | some (key, r0) =>
        match skipWs r0 with
        | [] => none
        | col :: r1 =>
          if col ≠ ':' then none
          else
            match parseValue fuel depth (skipWs r1) with
            | none => none
            | some (v, r) =>
              match skipWs r with
              | [] => none
              | d :: ds =>
                if d = ',' then
                  (parseMembers fuel depth (skipWs ds)).map fun m => ((key, v) :: m.1, m.2)
                else if d = '\x7d' then some ([(key, v)], ds)
                else none
end

/-- The first JSON value of a text and what follows it.  The fuel, twice the length
plus two, covers every descent the text allows. -/
def decodeFirst (s : GoString) : Option (JSON × GoString) :=
  parseValue (2 * s.length + 2) 0 (skipWs s)

/-- The value of a text that is one JSON value surrounded by white space, the
acceptance test of Go `checkValid`; `none` for every other text. -/
def parseJSON (s : GoString) : Option JSON :=
  match decodeFirst s with
  | some (v, rest) => if skipWs rest = [] then some v else none
  | none => none

/-- The loop of Go `appendFoldedName`: ASCII letters are upper-cased and the two
non-ASCII runes that fold to an ASCII letter, U+017F (bytes C5 BF, to `S`) and U+212A
(bytes E2 84 AA, to `K`), are replaced by it; `skip` counts bytes of such a rune
still to be dropped.  Other bytes are kept. -/
def foldNameLoop : Nat → GoString → GoString
  | _, [] => []
  | skip + 1, _ :: rest => foldNameLoop skip rest
  | 0, c :: rest =>
    if inRange 'a' 'z' c then Char.ofNat (c.toNat - 32) :: foldNameLoop 0 rest
    else if c.toNat = 0xC5 && rest.head? = some (Char.ofNat 0xBF) then 'S' :: foldNameLoop 1 rest
    else if c.toNat = 0xE2 && rest.head? = some (Char.ofNat 0x84) &&
        (rest.drop 1).head? = some (Char.ofNat 0xAA) then 'K' :: foldNameLoop 2 rest
    else c :: foldNameLoop 0 rest

/-- Go `foldName`: the case-folded form under which field names are compared. -/
def foldName (s : GoString) : GoString := foldNameLoop 0 s

/-- The fields of `ErrorResponse`. -/
inductive ErrField where
  | Type_
  | Title
  | Status
  | Detail
  deriving DecidableEq, Repr

/-- The JSON names of the fields of `ErrorResponse`, from its struct tags, in
declaration order. -/
def errorFields : List (GoString × ErrField) :=
  [("type".toList, ErrField.Type_), ("title".toList, ErrField.Title),
   ("status".toList, ErrField.Status), ("detail".toList, ErrField.Detail)]

/-- The field an object key is stored in: the field of exactly that name, or else the
first field whose name equals the key under case folding. -/
def lookupField (key : GoString) : Option ErrField :=
  match errorFields.find? fun f => f.1 = key with
  | some f => some f.2
  | none => (errorFields.find? fun f => foldName f.1 = foldName key).map fun f => f.2

/-- One step of reading a decimal number: the value so far times ten plus the next
digit, or failure on a byte that is not a digit. -/
def digitStep : Option Nat → Char → Option Nat
  | some n, d => if isDigit d then some (n * 10 + (d.toNat - 48)) else none
  | none, _ => none

/-- The value of a run of decimal digits; `none` when the text is empty or holds
another byte. -/
def digitsValue : GoString → Option Nat
  | [] => none
  | c :: cs => (c :: cs).foldl digitStep (some 0)

/-- Go `strconv.ParseInt(s, 10, 64)`: an optional sign and decimal digits, within
the range of a 64-bit `int`. -/
def parseInt64 (lit : GoString) : Option Int :=
  let neg : Bool := ['-'].isPrefixOf lit
  let ds : GoString := if ['-'].isPrefixOf lit || ['+'].isPrefixOf lit then lit.drop 1 else lit
  match digitsValue ds with
  | none => none
  | some n =>
    let v : Int := if neg then -(n : Int) else (n : Int)
    if -9223372036854775808 ≤ v ∧ v ≤ 9223372036854775807 then some v else none

/-- Store a JSON value in a field of an `ErrorResponse`.  A string goes into a string
field and an integer literal in range into `Status`; `null` and values of another
kind leave the field as it is (for the latter the decoder notes an error and goes
on). -/
def setField (e : ErrorResponse) : ErrField → JSON → ErrorResponse
  | ErrField.Type_, JSON.string s => { e with Type_ := s }
  | ErrField.Title, JSON.string s => { e with Title := s }
  | ErrField.Detail, JSON.string s => { e with Detail := s }
  | ErrField.Status, JSON.number lit =>
    match parseInt64 lit with
    | some n => { e with Status := n }
    | none => e
  | _, _ => e

/-- Store the members of a JSON object in an `ErrorResponse`, in the order read. -/
def setMembers (e : ErrorResponse) (kvs : List (GoString × JSON)) : ErrorResponse :=
  kvs.foldl (fun acc kv =>
    match lookupField kv.1 with
    | some f => setField acc f kv.2
    | none => acc) e

/-- Go `json.Unmarshal(data, errorResponse)` with the error dropped, as the program
calls it: the record after the call.  A text that is not one JSON value leaves the
record untouched, as does a value that is not an object. -/
def UnmarshalErrorResponse (data : GoString) (e : ErrorResponse) : ErrorResponse :=
  match parseJSON data with
  | some (JSON.object kvs) => setMembers e kvs
  | _ => e

/-! ## The request pipeline of `mailchimp.go` -/

/-- ErrorResponse.Error of `mailchimp.go`. -/
def ErrorResponse.Error (e : ErrorResponse) : GoString :=
  Sprintf "Error %d %s (%s)".toList [FmtArg.int e.Status, FmtArg.str e.Title, FmtArg.str e.Detail]

/-- The zero value of `ErrorResponse`, Go `new(ErrorResponse)`. -/
def ErrorResponse.zero : ErrorResponse := { Type_ := [], Title := [], Status := 0, Detail := [] }

/-- CheckResponse of `mailchimp.go`: `none` is the nil error. -/
def CheckResponse (r : Response) : Option GoError :=
  if 200 ≤ r.StatusCode ∧ r.StatusCode ≤ 299 then none
  else
    match r.Body with
    | Body.bytes data =>
      some (GoError.errorResponse (UnmarshalErrorResponse data ErrorResponse.zero))
    | Body.unreadable _ => some (GoError.errorResponse ErrorResponse.zero)

/-- The token bytes of HTTP, Go `httpguts.IsTokenRune`. -/
def isTokenByte (c : Char) : Bool :=
  isLetter c || isDigit c ||
    ['!', '#', '$', '%', '&', apostrophe, '*', '+', '-', '.', '^', '_', Char.ofNat 96, '|',
      '~'].contains c

/-- Go `validMethod` of `net/http`. -/
def validMethod (method : GoString) : Bool := method ≠ [] && method.all isTokenByte

/-- An index result of Go as an integer, -1 for "not found". -/
def indexOrMinusOne : Option Nat → Int
  | some i => (i : Int)
  | none => -1

/-- Go `removeEmptyPort` of `net/http`. -/
def removeEmptyPort (host : GoString) : GoString :=
  if indexOrMinusOne (lastIndexByte ':' host) > indexOrMinusOne (lastIndexByte ']' host) then
    (if host.getLast? = some ':' then host.dropLast else host)
  else host

/-- Go `http.NewRequest(method, url, body)`. -/
def NewRequest (method url : GoString) (body : Option GoString) : Except GoError Request :=
  let method : GoString := if method = [] then "GET".toList else method
  if !validMethod method then
    Except.error (GoError.errorString "net/http: invalid method".toList)
  else
    match Parse url with
    | Except.error e => Except.error e
    | Except.ok u =>
      Except.ok { Method := method, URL := { u with Host := removeEmptyPort u.Host },
                  Host := removeEmptyPort u.Host, Header := [], Body := body }

/-- Go `(*Request).SetBasicAuth`: set the `Authorization` header. -/
def Request.SetBasicAuth (r : Request) (username password : GoString) : Request :=
  { r with Header :=
      (r.Header.filter fun h => h.1 ≠ "Authorization".toList) ++
        [("Authorization".toList,
          "Basic ".toList ++ base64Encode (username ++ ':' :: password))] }

/-- Lines 70 to 77 of `Client.Do`: the buffer holding the encoded body; `none` is
the nil buffer of a nil body. -/
def encodeBody : Option GoValue → Except GoError (Option GoString)
  | none => Except.ok none
  | some v => (Encode v).map some

/-- Lines 70 to 85 of `Client.Do`: the request that will be handed to the transport.
The outer `none` means the call panics (a nil `BaseURL` is dereferenced); an error
means `Do` returns it without calling the transport. -/
def Client.buildRequest (c : Client) (method path : GoString) (body : Option GoValue) :
    Option (Except GoError Request) :=
  match encodeBody body with
  | Except.error e => some (Except.error e)
  | Except.ok buf =>
    match c.BaseURL with
    | none => none
    | some base =>
      let apiURL := Sprintf "%s%s".toList [FmtArg.str base.String, FmtArg.str path]
      match NewRequest method apiURL buf with
      | Except.error e => some (Except.error e)
      | Except.ok req => some (Except.ok (req.SetBasicAuth [] c.APIKey))

/-- The least magnitude that rounds to infinity as a `float64`: the largest finite
value plus half a unit in the last place, `2^1024 - 2^970`. -/
def float64Overflow : Nat :=
  179769313486231580793728971405303415079934132710037826936173778980444968292764750946649017977587207096330286416692887910946555547851940402630657488671505820681908902000708383676273854845817711531764475730270069855571366959622842914819860834936475292719074168444365510704342711559699508093042880177904174497792

/-- The value of a run of digits, zero for an empty run. -/
def digitsNat (ds : GoString) : Nat := ds.foldl (fun n d => n * 10 + (d.toNat - 48)) 0

/-- The decimal exponent written in a number literal after its digits: the text
starts with `e` or `E` and an optional sign, or is empty. -/
def literalExponent : GoString → Int
  | [] => 0
  | _ :: sg :: ds =>
    if sg = '-' then -(digitsNat ds : Int)
    else if sg = '+' then (digitsNat ds : Int)
    else (digitsNat (sg :: ds) : Int)
  | [_] => 0

/-- Whether Go `strconv.ParseFloat(lit, 64)` reports a range error for a JSON number
literal: the magnitude `D * 10^E`, with `D` the digits of the literal and `E` its
exponent less the number of fraction digits, is at least `float64Overflow`.  (A
literal too small for a `float64` is read as zero without an error.) -/
def numberOverflows (lit : GoString) : Bool :=
  let body : GoString := if ['-'].isPrefixOf lit then lit.drop 1 else lit
  let ip := takeDigits body
  let fr : GoString × GoString :=
    match ip.2 with
    | '.' :: t => takeDigits t
    | r => ([], r)
  let digits : GoString := ip.1 ++ fr.1
  let D : Nat := digitsNat digits
  let E : Int := literalExponent fr.2 - (fr.1.length : Int)
  if D = 0 then false
  else if 0 ≤ E then decide (400 < E) || decide (float64Overflow ≤ D * 10 ^ E.toNat)
  else if digits.length < (-E).toNat then false
  else decide (float64Overflow * 10 ^ (-E).toNat ≤ D)

mutual
/-- Whether a decoded value can be stored in an `interface{}`: every number in it
must convert to a `float64` (Go `convertNumber`). -/
def numbersFit : JSON → Bool
  | JSON.null => true
  | JSON.bool _ => true
  | JSON.number lit => !numberOverflows lit
  | JSON.string _ => true
  | JSON.array xs => numbersFitList xs
  | JSON.object kvs => numbersFitMembers kvs
/-- The test `numbersFit` on the elements of an array. -/
def numbersFitList : List JSON → Bool
  | [] => true
  | x :: xs => numbersFit x && numbersFitList xs
/-- The test `numbersFit` on the members of an object. -/
def numbersFitMembers : List (GoString × JSON) → Bool
  | [] => true
  | kv :: kvs => numbersFit kv.2 && numbersFitMembers kvs
end

/-- Go `json.NewDecoder(resp.Body).Decode(&v)` with `v` an `interface{}`: the first
JSON value of the body, or an error when the text is not JSON or one of its numbers
does not convert to a `float64`. -/
def decodeBody : Body → Except GoError JSON
  | Body.bytes data =>
    match decodeFirst data with
    | some (v, _) =>
      if numbersFit v then Except.ok v
      else Except.error (GoError.errorString
        "json: cannot unmarshal number into Go value of type float64".toList)
    | none => Except.error (GoError.errorString "json: syntax error or unexpected end of input".toList)
  | Body.unreadable e => Except.error e

/-- Lines 88 to 103 of `Client.Do`: what is done with the result of the transport. -/
def finishDo (r : Except GoError Response) : Except GoError JSON :=
  match r with
  | Except.error e => Except.error e
  | Except.ok resp =>
    match CheckResponse resp with
    | some err => Except.error err
    | none => decodeBody resp.Body

/-- Client.Do of `mailchimp.go`.  The outer `none` means the call panics; otherwise
the result is the pair (value, nil) or (nil, error). -/
def Client.Do (c : Client) (method path : GoString) (body : Option GoValue) :
    Option (Except GoError JSON) :=
  match c.buildRequest method path body with
  | none => none
  | some (Except.error e) => some (Except.error e)
  | some (Except.ok req) => some (finishDo (c.client req))

/-- Client.Subscribe of `mailchimp.go`.  The map is given by its entries in key
order. -/
def Client.Subscribe (c : Client) (email listID : GoString) : Option (Except GoError JSON) :=
  c.Do "POST".toList (Sprintf "/lists/%s/members/".toList [FmtArg.str listID])
    (some (GoValue.fields [("email_address".toList, GoValue.string email),
                           ("status".toList, GoValue.string "subscribed".toList)]))

/-! ## The batch encoder of `batch.go` -/

/-- BatchOperation of `batch.go`. -/
structure BatchOperation where
  Method : GoString
  Path : GoString
  Body : GoValue

/-- Batch of `batch.go`.  `Operations` is a slice; `none` is the nil slice. -/
structure Batch where
  Operations : Option (List BatchOperation)

/-- CreateBatch of `batch.go`. -/
def CreateBatch : Batch := { Operations := some [] }

/-- Go `len` of a slice. -/
def sliceLen {α : Type} : Option (List α) → Nat
  | none => 0
  | some xs => xs.length

/-- Go `append(s, x)`. -/
def sliceAppend {α : Type} : Option (List α) → α → Option (List α)
  | none, x => some [x]
  | some xs, x => some (xs ++ [x])

/-- Batch.AddOperation of `batch.go`; the batch after the call. -/
def Batch.AddOperation (b : Batch) (o : BatchOperation) : Batch :=
  { Operations := sliceAppend b.Operations o }

/-- A `BatchOperation` as the encoder sees it: its three fields under their tags. -/
def BatchOperation.toGoValue (o : BatchOperation) : GoValue :=
  GoValue.fields [("method".toList, GoValue.string o.Method),
                  ("path".toList, GoValue.string o.Path),
                  ("body".toList, o.Body)]

/-- A `Batch` as the encoder sees it: one untagged field, `Operations`. -/
def Batch.toGoValue (b : Batch) : GoValue :=
  GoValue.fields [("Operations".toList,
    match b.Operations with
    | none => GoValue.nil
    | some ops => GoValue.slice (ops.map BatchOperation.toGoValue))]

/-- The success test of `Client.CreateBatch`, `resp.StatusCode/100 == 2`; Go
division truncates toward zero. -/
def batchSuccess (statusCode : Int) : Bool := decide (Int.tdiv statusCode 100 = 2)

/-- Lines 41 to 63 of `Client.CreateBatch`: what is done with the result of `c.do`.
`unmarshalBatchResponse` stands for `json.Unmarshal` into a `BatchResponse` and
`extractError` for the helper of that name; both are declared outside the two
files. -/
def finishBatch {BatchResponse : Type}
    (unmarshalBatchResponse : GoString → Except GoError BatchResponse)
    (extractError : GoString → Except GoError GoError)
    (r : Except GoError Response) : Except GoError BatchResponse :=
  match r with
  | Except.error e => Except.error e
  | Except.ok resp =>
    match resp.Body with
    | Body.unreadable e => Except.error e
    | Body.bytes responseBody =>
      if batchSuccess resp.StatusCode then unmarshalBatchResponse responseBody
      else
        match extractError responseBody with
        | Except.error e => Except.error e
        | Except.ok errorResponse => Except.error errorResponse

/-- Lines 29 to 34 of `Client.CreateBatch`: the map that is sent as the body. -/
def batchEnvelope (batch : Batch) : Except GoError GoValue :=
  match Marshal batch.toGoValue with
  | Except.error e => Except.error e
  | Except.ok operations =>
    Except.ok (GoValue.fields [("operations".toList, GoValue.bytes operations)])

/-- Client.CreateBatch of `batch.go`, for a non-nil batch.  `do_` stands for the
method `c.do`, which is declared outside the two files. -/
def Client.CreateBatch {BatchResponse : Type}
    (do_ : Client → GoString → GoString → Option GoValue → Except GoError Response)
    (unmarshalBatchResponse : GoString → Except GoError BatchResponse)
    (extractError : GoString → Except GoError GoError)
    (c : Client) (batch : Batch) : Except GoError BatchResponse :=
  match batchEnvelope batch with
  | Except.error e => Except.error e
  | Except.ok data =>
    finishBatch unmarshalBatchResponse extractError
      (do_ c "POST".toList "/batches".toList (some data))

/-- A transport that answers every request with the same response. -/
def constantTransport (resp : Response) : HTTPClient := fun _ => Except.ok resp

/-- The client `NewClient` returns for the key "xyz-us11" and a given transport. -/
def sampleClient (t : HTTPClient) : Client :=
  { client := t,
    BaseURL := (Parse "https://us11.api.mailchimp.com/3.0".toList).toOption,
    DC := "us11".toList,
    APIKey := "xyz-us11".toList }

/-- The error body of the specification's example. -/
def sampleErrorBody : GoString :=
  "\x7b\"type\":\"t\",\"title\":\"T\",\"status\":404,\"detail\":\"d\"\x7d".toList

/-- Two operations used as a concrete batch content. -/
def sampleOps : List BatchOperation :=
  [⟨"POST".toList, "/lists/L/members/".toList,
      GoValue.fields [("email_address".toList, GoValue.string "a@x.com".toList)]⟩,
   ⟨"GET".toList, "/lists".toList, GoValue.nil⟩]

/-- A 2xx response whose body is a JSON object followed by a newline. -/
def sampleOkResponse : Response :=
  ⟨200, Body.bytes "\x7b\"id\":\"b1\",\"n\":[1,null]\x7d\n".toList⟩

/-- Texts joined by commas, the layout of the elements of a JSON array. -/
def joinComma : List GoString → GoString
  | [] => []
  | [t] => t
  | t :: u :: rest => t ++ ',' :: joinComma (u :: rest)

/-- A byte that `encoding/json` copies into a string literal unchanged. -/
def plainJSONByte (c : Char) : Prop := c.toNat < 128 ∧ jsonEscapeASCII c = [c]

/-- A byte of a region token that `net/url` accepts in a host name and writes back
unchanged: a printable ASCII byte that `shouldEscape` leaves alone in host mode
(letters, digits and the marks - _ . ~ ! $ & ' ( ) * + , ; = ] < > "), the port colon
and the opening bracket of an IP literal excepted. -/
def regionByte (c : Char) : Bool :=
  decide (32 ≤ c.toNat) && decide (c.toNat < 127) && !shouldEscape c Encoding.encodeHost &&
    !(c = ':') && !(c = '[')

/-! ## Theorems -/

/-! ### Splitting and decimal rendering -/

theorem Split_length (sep : Char) (s : GoString) :
    (Split sep s).length = countByte sep s + 1 := by
  induction s with
  | nil => rfl
  | cons c cs ih =>
    unfold Split countByte
    by_cases h : c = sep
    · simp [h, ih]; omega
    · simp only [h, if_false]
      cases hs : Split sep cs with
      | nil => simp [hs] at ih
      | cons p ps => simp [hs] at ih ⊢; omega

/-! ### The error model -/

/-- C3: for every ErrorResponse the rendering is "Error " followed by the decimal
status, a space, the title, " (", the detail and ")"; the Type field plays no part,
and the zero record renders as "Error 0  ()". -/
theorem ErrorResponse_Error_rendering (e : ErrorResponse) (t : GoString) :
    e.Error = "Error ".toList ++ fmtInt e.Status ++ " ".toList ++ e.Title ++ " (".toList
        ++ e.Detail ++ ")".toList
    ∧ ({ e with Type_ := t } : ErrorResponse).Error = e.Error
    ∧ ErrorResponse.zero.Error = "Error 0  ()".toList := by
  refine ⟨?_, rfl, by decide⟩
  simp [ErrorResponse.Error, Sprintf]

/-! ### The two success tests -/

theorem batchSuccess_iff (c : Int) : batchSuccess c = true ↔ (200 ≤ c ∧ c ≤ 299) := by
  unfold batchSuccess
  simp only [decide_eq_true_eq]
  rcases Int.lt_or_le c 0 with h | h
  · have h1 : Int.tdiv c 100 = -(Int.tdiv (-c) 100) := by
      rw [Int.neg_tdiv, Int.neg_neg]
    have h2 : 0 ≤ Int.tdiv (-c) 100 := Int.tdiv_nonneg (by omega) (by decide)
    omega
  · rw [Int.tdiv_eq_ediv h (by decide)]
    omega

theorem CheckResponse_none_iff (r : Response) :
    CheckResponse r = none ↔ (200 ≤ r.StatusCode ∧ r.StatusCode ≤ 299) := by
  unfold CheckResponse
  by_cases h : 200 ≤ r.StatusCode ∧ r.StatusCode ≤ 299
  · simp [h]
  · simp only [h, if_false, iff_false]
    cases r.Body <;> simp

/-- C10: on every integer status code the test of the batch path, truncating
division by 100 giving 2, holds exactly when the test of the request pipeline,
200 <= c <= 299, holds; so `Client.CreateBatch` takes its success branch exactly for
the responses on which `CheckResponse` returns nil. -/
theorem success_tests_agree (c : Int) (r : Response) :
    (Int.tdiv c 100 = 2 ↔ (200 ≤ c ∧ c ≤ 299))
    ∧ (batchSuccess r.StatusCode = true ↔ CheckResponse r = none) := by
  constructor
  · have := batchSuccess_iff c
    simpa [batchSuccess] using this
  · rw [batchSuccess_iff, CheckResponse_none_iff]

/-! ### The constructor -/

/-- C1, as amended: a key whose number of `-` separators is not one is rejected by
`NewClient` with the format error and no client, whatever the transport argument. -/
theorem NewClient_rejects_malformed_key (D : HTTPClient) (apiKey : GoString)
    (httpClient : Option HTTPClient) (h : countByte '-' apiKey ≠ 1) :
    NewClient D apiKey httpClient = Except.error keyFormatError := by
  unfold NewClient
  rw [if_pos]
  rw [Split_length]
  omega

/-- C1, witness: the keys "xyz" (no separator) and "a-b-c" (two separators). -/
theorem NewClient_rejects_malformed_key_witness :
    (countByte '-' "xyz".toList ≠ 1
      ∧ NewClient refusingTransport "xyz".toList none = Except.error keyFormatError)
    ∧ (countByte '-' "a-b-c".toList ≠ 1
      ∧ NewClient refusingTransport "a-b-c".toList none = Except.error keyFormatError) :=
  ⟨⟨by decide, NewClient_rejects_malformed_key _ _ _ (by decide)⟩,
   ⟨by decide, NewClient_rejects_malformed_key _ _ _ (by decide)⟩⟩

/-- C1, counterexample: the keys "-us11" (empty key part) and "xyz-" (empty region
part) have exactly one separator, and `NewClient` returns a client for each. -/
theorem NewClient_accepts_empty_parts :
    (Split '-' "-us11".toList = [[], "us11".toList]
      ∧ ∃ c, NewClient refusingTransport "-us11".toList none = Except.ok c
          ∧ c.DC = "us11".toList)
    ∧ (Split '-' "xyz-".toList = ["xyz".toList, []]
      ∧ ∃ c, NewClient refusingTransport "xyz-".toList none = Except.ok c ∧ c.DC = []) :=
  ⟨⟨by decide, _, rfl, rfl⟩, ⟨by decide, _, rfl, rfl⟩⟩

/-! ### Building a batch -/

theorem foldl_AddOperation (os ops : List BatchOperation) (b : Batch)
    (hb : b.Operations = some ops) :
    (os.foldl Batch.AddOperation b).Operations = some (ops ++ os) := by
  induction os generalizing b ops with
  | nil => simpa using hb
  | cons o os ih =>
    rw [List.foldl_cons, ih (ops ++ [o])]
    · simp
    · simp [Batch.AddOperation, sliceAppend, hb]

theorem marshalElems_joinComma (xs : List GoValue) (ts : List GoString)
    (h : List.Forall₂ (fun x t => Marshal x = Except.ok t) xs ts) :
    marshalElems xs = Except.ok (joinComma ts) := by
  induction h with
  | nil => rfl
  | @cons x t xs ts hx hrest ih =>
    cases hrest with
    | nil => simpa [marshalElems, joinComma] using hx
    | @cons y u ys us hy hys =>
      rw [marshalElems, hx]
      simp only [ih, Except.map, joinComma]

theorem Marshal_batch (b : Batch) (os : List BatchOperation) (ts : List GoString)
    (hops : b.Operations = some os)
    (hts : List.Forall₂ (fun x t => Marshal (BatchOperation.toGoValue x) = Except.ok t) os ts) :
    Marshal b.toGoValue
      = Except.ok ("\x7b\"Operations\":[".toList ++ joinComma ts ++ "]\x7d".toList) := by
  have hel : marshalElems (os.map BatchOperation.toGoValue) = Except.ok (joinComma ts) := by
    apply marshalElems_joinComma
    rw [List.forall₂_map_left_iff]
    exact hts
  simp only [Batch.toGoValue, hops, Marshal, marshalFields, hel, Except.map]
  simp [encodeString, appendStringLoop, jsonEscapeASCII]

/-- C8: `CreateBatch()` has an empty operation list; `AddOperation(o)` on any batch
leaves the operations it had (none for a nil slice) followed by `o`; and after adding
`os` one by one to a fresh batch the operation list is `os`, of that length, and the
encoder writes an array of one object per operation in the same order. -/
theorem AddOperation_appends (b : Batch) (os : List BatchOperation) (o : BatchOperation)
    (ts : List GoString)
    (hts : List.Forall₂ (fun x t => Marshal (BatchOperation.toGoValue x) = Except.ok t) os ts) :
    CreateBatch.Operations = some []
    ∧ (b.AddOperation o).Operations = some (b.Operations.getD [] ++ [o])
    ∧ (os.foldl Batch.AddOperation CreateBatch).Operations = some os
    ∧ sliceLen (os.foldl Batch.AddOperation CreateBatch).Operations = os.length
    ∧ ts.length = os.length
    ∧ Marshal (os.foldl Batch.AddOperation CreateBatch).toGoValue
        = Except.ok ("\x7b\"Operations\":[".toList ++ joinComma ts ++ "]\x7d".toList) := by
  have hops : (os.foldl Batch.AddOperation CreateBatch).Operations = some os := by
    rw [foldl_AddOperation os [] CreateBatch rfl]
    simp
  have hadd : (b.AddOperation o).Operations = some (b.Operations.getD [] ++ [o]) := by
    cases hb : b.Operations <;> simp [Batch.AddOperation, sliceAppend, hb]
  refine ⟨rfl, hadd, hops, by simp [hops, sliceLen],
    (List.Forall₂.length_eq hts).symm, ?_⟩
  exact Marshal_batch _ os ts hops hts

/-! ### Decimal round trip -/

theorem digitChar_spec (d : Nat) (h : d < 10) :
    isDigit (digitChar d) = true ∧ (digitChar d).toNat - 48 = d := by
  interval_cases d <;> decide

theorem natDigitsAux_append (fuel n : Nat) (acc : GoString) :
    natDigitsAux fuel n acc = natDigitsAux fuel n [] ++ acc := by
  induction fuel generalizing n acc with
  | zero => simp [natDigitsAux]
  | succ fuel ih =>
    unfold natDigitsAux
    by_cases h : n < 10
    · simp [h]
    · simp only [h, if_false]
      rw [ih (n / 10) (digitChar (n % 10) :: acc), ih (n / 10) [digitChar (n % 10)]]
      simp

theorem natDigitsAux_value (fuel n : Nat) (h : n < fuel) :
    (natDigitsAux fuel n []).foldl digitStep (some 0) = some n := by
  induction fuel generalizing n with
  | zero => omega
  | succ fuel ih =>
    unfold natDigitsAux
    by_cases h10 : n < 10
    · simp [h10, digitStep, digitChar_spec n h10]
    · simp only [h10, if_false]
      rw [natDigitsAux_append, List.foldl_append, ih (n / 10) (by omega)]
      have hd := digitChar_spec (n % 10) (Nat.mod_lt _ (by decide))
      simp only [List.foldl_cons, List.foldl_nil, digitStep, hd.1, hd.2, if_true]
      congr 1
      omega

theorem natDigitsAux_all_digits (fuel n : Nat) :
    ∀ c ∈ natDigitsAux fuel n [], isDigit c = true := by
  induction fuel generalizing n with
  | zero => simp [natDigitsAux]
  | succ fuel ih =>
    unfold natDigitsAux
    by_cases h10 : n < 10
    · simp [h10, (digitChar_spec n h10).1]
    · simp only [h10, if_false]
      rw [natDigitsAux_append]
      intro c hc
      rcases List.mem_append.mp hc with h | h
      · exact ih _ c h
      · simp only [List.mem_singleton] at h
        rw [h]
        exact (digitChar_spec (n % 10) (Nat.mod_lt _ (by decide))).1

theorem fmtNat_ne_nil (n : Nat) : fmtNat n ≠ [] := by
  unfold fmtNat natDigitsAux
  by_cases h10 : n < 10
  · simp [h10]
  · simp only [h10, if_false]
    rw [natDigitsAux_append]
    simp

theorem digitsValue_fmtNat (n : Nat) : digitsValue (fmtNat n) = some n := by
  have hv := natDigitsAux_value (n + 1) n (by omega)
  have hne := fmtNat_ne_nil n
  unfold fmtNat at hne ⊢
  cases hl : natDigitsAux (n + 1) n [] with
  | nil => exact absurd hl hne
  | cons c cs => rw [hl] at hv; simpa [digitsValue] using hv

theorem fmtNat_head_digit (n : Nat) : ∃ c cs, fmtNat n = c :: cs ∧ isDigit c = true := by
  have hall := natDigitsAux_all_digits (n + 1) n
  have hne := fmtNat_ne_nil n
  unfold fmtNat at hne ⊢
  cases hl : natDigitsAux (n + 1) n [] with
  | nil => exact absurd hl hne
  | cons c cs => exact ⟨c, cs, rfl, hall c (by simp [hl])⟩

theorem isDigit_ne_sign (c : Char) (h : isDigit c = true) : c ≠ '-' ∧ c ≠ '+' := by
  constructor <;> (intro hc; subst hc; revert h; decide)

theorem parseInt64_fmtInt (s : Int)
    (hlo : -9223372036854775808 ≤ s) (hhi : s ≤ 9223372036854775807) :
    parseInt64 (fmtInt s) = some s := by
  unfold parseInt64 fmtInt
  by_cases hneg : s < 0
  · have hs : s = -((s.natAbs : Nat) : Int) := by omega
    generalize s.natAbs = k at hs
    subst hs
    have h1 : -9223372036854775808 ≤ -(k : Int) := hlo
    have h2 : -(k : Int) ≤ 9223372036854775807 := hhi
    simp only [hneg, if_true, List.isPrefixOf, beq_self_eq_true, Bool.and_self, Bool.true_or,
      List.drop_succ_cons, List.drop_zero, digitsValue_fmtNat]
    simp [h1, h2]
  · obtain ⟨c, cs, hcs, hd⟩ := fmtNat_head_digit s.natAbs
    have hsign := isDigit_ne_sign c hd
    have hv := digitsValue_fmtNat s.natAbs
    have hs : s = ((s.natAbs : Nat) : Int) := by omega
    rw [hcs] at hv
    rw [hcs]
    generalize s.natAbs = k at hs hv
    subst hs
    have h1 : -9223372036854775808 ≤ (k : Int) := hlo
    have h2 : (k : Int) ≤ 9223372036854775807 := hhi
    have e1 : ('-' == c) = false := by simpa using fun h => hsign.1 h.symm
    have e2 : ('+' == c) = false := by simpa using fun h => hsign.2 h.symm
    have h3 : k ≤ 9223372036854775807 := by omega
    simp only [hneg, if_false, List.isPrefixOf, e1, e2, Bool.false_and, Bool.or_self]
    simp [hv, h1, h3]

/-- C8, witness: two operations added to a fresh batch; the second conjunct is what
the encoder writes for the resulting batch. -/
theorem AddOperation_appends_witness :
    sliceLen (sampleOps.foldl Batch.AddOperation CreateBatch).Operations = 2
    ∧ Marshal (sampleOps.foldl Batch.AddOperation CreateBatch).toGoValue
      = Except.ok ("\x7b\"Operations\":[\x7b\"method\":\"POST\",\"path\":\"/lists/L/members/\","
          ++ "\"body\":\x7b\"email_address\":\"a@x.com\"\x7d\x7d,"
          ++ "\x7b\"method\":\"GET\",\"path\":\"/lists\",\"body\":null\x7d]\x7d").toList :=
  ⟨(AddOperation_appends CreateBatch sampleOps ⟨[], [], GoValue.nil⟩
      [("\x7b\"method\":\"POST\",\"path\":\"/lists/L/members/\","
          ++ "\"body\":\x7b\"email_address\":\"a@x.com\"\x7d\x7d").toList,
        "\x7b\"method\":\"GET\",\"path\":\"/lists\",\"body\":null\x7d".toList]
      (List.Forall₂.cons rfl (List.Forall₂.cons rfl List.Forall₂.nil))).2.2.2.1,
   (AddOperation_appends CreateBatch sampleOps ⟨[], [], GoValue.nil⟩
      [("\x7b\"method\":\"POST\",\"path\":\"/lists/L/members/\","
          ++ "\"body\":\x7b\"email_address\":\"a@x.com\"\x7d\x7d").toList,
        "\x7b\"method\":\"GET\",\"path\":\"/lists\",\"body\":null\x7d".toList]
      (List.Forall₂.cons rfl (List.Forall₂.cons rfl List.Forall₂.nil))).2.2.2.2.2⟩

/-! ### The request pipeline: classification of responses -/

theorem float64Overflow_eq : float64Overflow = 2 ^ 1024 - 2 ^ 970 := by
  norm_num [float64Overflow]

theorem decodeFirst_of_parseJSON (data : GoString) (v : JSON) (h : parseJSON data = some v) :
    ∃ rest, decodeFirst data = some (v, rest) := by
  unfold parseJSON at h
  cases hd : decodeFirst data with
  | none => simp [hd] at h
  | some r =>
    obtain ⟨w, rest⟩ := r
    rw [hd] at h
    by_cases hr : skipWs rest = []
    · simp [hr] at h
      exact ⟨rest, by rw [h]⟩
    · simp [hr] at h

/-- C4, as amended: when the transport answers the request of a call with a status in
200..299 and a body that is one JSON value in which every number converts to a
`float64`, `Do` returns that value and a nil error; and `CheckResponse` returns nil
exactly for the status codes 200..299. -/
theorem Do_returns_decoded_value (c : Client) (method path : GoString) (body : Option GoValue)
    (req : Request) (resp : Response) (data : GoString) (v : JSON)
    (hreq : c.buildRequest method path body = some (Except.ok req))
    (hresp : c.client req = Except.ok resp)
    (hstatus : 200 ≤ resp.StatusCode ∧ resp.StatusCode ≤ 299)
    (hbody : resp.Body = Body.bytes data)
    (hjson : parseJSON data = some v)
    (hfit : numbersFit v = true) :
    c.Do method path body = some (Except.ok v)
    ∧ ∀ r : Response, CheckResponse r = none ↔ (200 ≤ r.StatusCode ∧ r.StatusCode ≤ 299) := by
  refine ⟨?_, CheckResponse_none_iff⟩
  obtain ⟨rest, hd⟩ := decodeFirst_of_parseJSON data v hjson
  simp [Client.Do, hreq, finishDo, hresp, (CheckResponse_none_iff resp).mpr hstatus, hbody,
    decodeBody, hd, hfit]

/-- C4, witness: the client for "xyz-us11" gets status 200 and a JSON object. -/
theorem Do_returns_decoded_value_witness :
    NewClient refusingTransport "xyz-us11".toList (some (constantTransport sampleOkResponse))
      = Except.ok (sampleClient (constantTransport sampleOkResponse))
    ∧ (sampleClient (constantTransport sampleOkResponse)).Do
        "GET".toList "/batches/b1".toList none
      = some (Except.ok (JSON.object [("id".toList, JSON.string "b1".toList),
          ("n".toList, JSON.array [JSON.number "1".toList, JSON.null])])) :=
  ⟨rfl, (Do_returns_decoded_value (sampleClient (constantTransport sampleOkResponse))
      "GET".toList "/batches/b1".toList none _ sampleOkResponse _ _ rfl rfl (by decide) rfl
      rfl rfl).1⟩

/-- C4, counterexample: with status 200 and the body `1e999`, which is one JSON value,
`Do` returns no value and the decoder's error, since the number does not convert to a
`float64`. -/
theorem Do_rejects_number_beyond_float64 :
    parseJSON "1e999".toList = some (JSON.number "1e999".toList)
    ∧ (sampleClient (constantTransport ⟨200, Body.bytes "1e999".toList⟩)).Do
        "GET".toList "/lists".toList none
      = some (Except.error (GoError.errorString
          "json: cannot unmarshal number into Go value of type float64".toList)) :=
  ⟨rfl, rfl⟩

/-- C6: when the transport answers with a status outside 200..299 and the body is
empty, is not one well-formed JSON value, or cannot be read, `Do` returns no value
and the zero-valued `ErrorResponse` as its error. -/
theorem Do_unparseable_error_body (c : Client) (method path : GoString) (body : Option GoValue)
    (req : Request) (resp : Response)
    (hreq : c.buildRequest method path body = some (Except.ok req))
    (hresp : c.client req = Except.ok resp)
    (hstatus : ¬ (200 ≤ resp.StatusCode ∧ resp.StatusCode ≤ 299))
    (hbody : resp.Body = Body.bytes []
      ∨ (∃ data, resp.Body = Body.bytes data ∧ parseJSON data = none)
      ∨ (∃ e, resp.Body = Body.unreadable e)) :
    c.Do method path body
      = some (Except.error (GoError.errorResponse
          { Type_ := [], Title := [], Status := 0, Detail := [] })) := by
  have hcheck : CheckResponse resp = some (GoError.errorResponse ErrorResponse.zero) := by
    unfold CheckResponse
    rw [if_neg hstatus]
    rcases hbody with h | ⟨data, h, hp⟩ | ⟨e, h⟩
    · rw [h]; rfl
    · rw [h]; simp [UnmarshalErrorResponse, hp]
    · rw [h]
  simp [Client.Do, hreq, finishDo, hresp, hcheck, ErrorResponse.zero]

/-- C6, witness: status 500 with the body "not json". -/
theorem Do_unparseable_error_body_witness :
    parseJSON "not json".toList = none
    ∧ (sampleClient (constantTransport ⟨500, Body.bytes "not json".toList⟩)).Do
        "GET".toList "/lists".toList none
      = some (Except.error (GoError.errorResponse
          { Type_ := [], Title := [], Status := 0, Detail := [] })) :=
  ⟨rfl, Do_unparseable_error_body
    (sampleClient (constantTransport ⟨500, Body.bytes "not json".toList⟩))
    "GET".toList "/lists".toList none _ ⟨500, Body.bytes "not json".toList⟩ rfl rfl (by decide)
    (Or.inr (Or.inl ⟨"not json".toList, rfl, rfl⟩))⟩

/-- C5, as amended: when the transport answers with a status outside 200..299 and the
body is the JSON object with members type `t`, title `T`, status `s` and detail `d`,
`s` an integer in the range of a 64-bit `int`, `Do` returns no value and the
`ErrorResponse` with exactly these fields, which renders as "Error s T (d)". -/
theorem Do_returns_error_record (c : Client) (method path : GoString) (body : Option GoValue)
    (req : Request) (resp : Response) (data t T d : GoString) (s : Int)
    (hreq : c.buildRequest method path body = some (Except.ok req))
    (hresp : c.client req = Except.ok resp)
    (hstatus : ¬ (200 ≤ resp.StatusCode ∧ resp.StatusCode ≤ 299))
    (hbody : resp.Body = Body.bytes data)
    (hjson : parseJSON data = some (JSON.object [("type".toList, JSON.string t),
      ("title".toList, JSON.string T), ("status".toList, JSON.number (fmtInt s)),
      ("detail".toList, JSON.string d)]))
    (hlo : -9223372036854775808 ≤ s) (hhi : s ≤ 9223372036854775807) :
    c.Do method path body
      = some (Except.error (GoError.errorResponse
          { Type_ := t, Title := T, Status := s, Detail := d }))
    ∧ ErrorResponse.Error { Type_ := t, Title := T, Status := s, Detail := d }
      = "Error ".toList ++ fmtInt s ++ " ".toList ++ T ++ " (".toList ++ d ++ ")".toList := by
  constructor
  · have hcheck : CheckResponse resp = some (GoError.errorResponse
        { Type_ := t, Title := T, Status := s, Detail := d }) := by
      unfold CheckResponse
      rw [if_neg hstatus, hbody]
      simp only [UnmarshalErrorResponse, hjson, setMembers, List.foldl_cons, List.foldl_nil]
      have l1 : lookupField "type".toList = some ErrField.Type_ := by decide
      have l2 : lookupField "title".toList = some ErrField.Title := by decide
      have l3 : lookupField "status".toList = some ErrField.Status := by decide
      have l4 : lookupField "detail".toList = some ErrField.Detail := by decide
      simp only [l1, l2, l3, l4, setField, parseInt64_fmtInt s hlo hhi, ErrorResponse.zero]
    simp [Client.Do, hreq, finishDo, hresp, hcheck]
  · simp [ErrorResponse.Error, Sprintf]

/-- C5, witness: status 404 with the body of the specification's example, rendered
"Error 404 T (d)". -/
theorem Do_returns_error_record_witness :
    (sampleClient (constantTransport ⟨404, Body.bytes sampleErrorBody⟩)).Do
        "GET".toList "/lists".toList none
      = some (Except.error (GoError.errorResponse
          { Type_ := "t".toList, Title := "T".toList, Status := 404, Detail := "d".toList }))
    ∧ ErrorResponse.Error
        { Type_ := "t".toList, Title := "T".toList, Status := 404, Detail := "d".toList }
      = "Error 404 T (d)".toList :=
  Do_returns_error_record (sampleClient (constantTransport ⟨404, Body.bytes sampleErrorBody⟩))
    "GET".toList "/lists".toList none _ ⟨404, Body.bytes sampleErrorBody⟩ sampleErrorBody
    "t".toList "T".toList "d".toList 404 rfl rfl (by decide) rfl rfl (by decide) (by decide)

/-- C5, counterexample: with status 404 and the body
`{"type":"t","title":"T","status":9223372036854775808,"detail":"d"}` the record `Do`
returns has Status 0, not the status of the body, and renders "Error 0 T (d)". -/
theorem Do_status_beyond_int64 :
    parseJSON ("\x7b\"type\":\"t\",\"title\":\"T\",\"status\":9223372036854775808,"
        ++ "\"detail\":\"d\"\x7d").toList
      = some (JSON.object [("type".toList, JSON.string "t".toList),
          ("title".toList, JSON.string "T".toList),
          ("status".toList, JSON.number (fmtInt 9223372036854775808)),
          ("detail".toList, JSON.string "d".toList)])
    ∧ (sampleClient (constantTransport ⟨404, Body.bytes
          ("\x7b\"type\":\"t\",\"title\":\"T\",\"status\":9223372036854775808,"
            ++ "\"detail\":\"d\"\x7d").toList⟩)).Do "GET".toList "/lists".toList none
      = some (Except.error (GoError.errorResponse
          { Type_ := "t".toList, Title := "T".toList, Status := 0, Detail := "d".toList }))
    ∧ ErrorResponse.Error
        { Type_ := "t".toList, Title := "T".toList, Status := 0, Detail := "d".toList }
      = "Error 0 T (d)".toList :=
  ⟨rfl, rfl, rfl⟩

/-! ### The batch envelope -/

theorem appendStringLoop_plain (s : GoString) (h : ∀ c ∈ s, plainJSONByte c) :
    appendStringLoop 0 true s = s := by
  induction s with
  | nil => rfl
  | cons c cs ih =>
    have hc := h c (by simp)
    unfold appendStringLoop
    rw [if_pos hc.1, hc.2, ih (fun d hd => h d (by simp [hd]))]
    rfl

theorem b64Char_plain (n : Nat) : plainJSONByte (b64Char n) := by
  rcases Nat.lt_or_ge n 64 with h | h
  · unfold plainJSONByte
    interval_cases n <;> decide
  · have : b64Char n = '/' := by
      unfold b64Char
      rw [if_neg (by omega), if_neg (by omega), if_neg (by omega), if_neg (by omega)]
    rw [this]
    unfold plainJSONByte
    decide

theorem base64Encode_plain (s : GoString) : ∀ c ∈ base64Encode s, plainJSONByte c := by
  have hpad : plainJSONByte '=' := by unfold plainJSONByte; decide
  induction s using base64Encode.induct with
  | case1 => simp [base64Encode]
  | case2 a =>
    intro c hc
    simp only [base64Encode, List.mem_cons, List.mem_nil_iff, or_false] at hc
    rcases hc with h | h | h | h <;> rw [h] <;> first | exact b64Char_plain _ | exact hpad
  | case3 a b =>
    intro c hc
    simp only [base64Encode, List.mem_cons, List.mem_nil_iff, or_false] at hc
    rcases hc with h | h | h | h <;> rw [h] <;> first | exact b64Char_plain _ | exact hpad
  | case4 a b c rest ih =>
    intro d hd
    simp only [base64Encode, List.cons_append, List.nil_append, List.mem_cons] at hd
    rcases hd with h | h | h | h | h
    · rw [h]; exact b64Char_plain _
    · rw [h]; exact b64Char_plain _
    · rw [h]; exact b64Char_plain _
    · rw [h]; exact b64Char_plain _
    · exact ih d h

theorem Encode_envelope (m : GoString) :
    Encode (GoValue.fields [("operations".toList, GoValue.bytes m)])
      = Except.ok ("\x7b\"operations\":\"".toList ++ base64Encode m ++ "\"\x7d\n".toList) := by
  have hp := appendStringLoop_plain (base64Encode m) (base64Encode_plain m)
  simp only [Encode, Marshal, marshalFields, Except.map, encodeString, hp]
  simp [appendStringLoop, jsonEscapeASCII]

/-- C7, as amended: for every batch with a non-nil operation list o1..oN that the
encoder accepts,
`Client.CreateBatch` calls `c.do` with method POST, path "/batches" and a one-member
map whose "operations" value is the byte slice holding the JSON text of the Batch
record, `{"Operations":[o1,...,oN]}`; on the wire that member is a JSON string
holding the base64 encoding of this text. -/
theorem CreateBatch_submits_base64_envelope {BatchResponse : Type}
    (do_ : Client → GoString → GoString → Option GoValue → Except GoError Response)
    (unmarshalBatchResponse : GoString → Except GoError BatchResponse)
    (extractError : GoString → Except GoError GoError)
    (c : Client) (batch : Batch) (os : List BatchOperation) (ts : List GoString)
    (hops : batch.Operations = some os)
    (hts : List.Forall₂ (fun x t => Marshal (BatchOperation.toGoValue x) = Except.ok t) os ts) :
    Client.CreateBatch do_ unmarshalBatchResponse extractError c batch
      = finishBatch unmarshalBatchResponse extractError
          (do_ c "POST".toList "/batches".toList
            (some (GoValue.fields [("operations".toList,
              GoValue.bytes ("\x7b\"Operations\":[".toList ++ joinComma ts ++ "]\x7d".toList))])))
    ∧ Encode (GoValue.fields [("operations".toList,
          GoValue.bytes ("\x7b\"Operations\":[".toList ++ joinComma ts ++ "]\x7d".toList))])
      = Except.ok ("\x7b\"operations\":\"".toList
          ++ base64Encode ("\x7b\"Operations\":[".toList ++ joinComma ts ++ "]\x7d".toList)
          ++ "\"\x7d\n".toList) := by
  refine ⟨?_, Encode_envelope _⟩
  simp only [Client.CreateBatch, batchEnvelope, Marshal_batch batch os ts hops hts]

/-- C7, witness: the batch holding one GET operation with a nil body. -/
theorem CreateBatch_submits_base64_envelope_witness :
    Encode (GoValue.fields [("operations".toList, GoValue.bytes
        "\x7b\"Operations\":[\x7b\"method\":\"GET\",\"path\":\"/lists\",\"body\":null\x7d]\x7d".toList)])
      = Except.ok ("\x7b\"operations\":\"eyJPcGVyYXRpb25zIjpbeyJtZXRob2QiOiJHRVQiLCJwYXRoIjoiL2xpc3"
          ++ "RzIiwiYm9keSI6bnVsbH1dfQ==\"\x7d\n").toList :=
  (CreateBatch_submits_base64_envelope (fun _ _ _ _ => Except.error keyFormatError)
    (fun _ => (Except.error keyFormatError : Except GoError Unit))
    (fun _ => Except.error keyFormatError) (sampleClient refusingTransport)
    ⟨some [⟨"GET".toList, "/lists".toList, GoValue.nil⟩]⟩
    [⟨"GET".toList, "/lists".toList, GoValue.nil⟩]
    ["\x7b\"method\":\"GET\",\"path\":\"/lists\",\"body\":null\x7d".toList] rfl
    (List.Forall₂.cons rfl List.Forall₂.nil)).2

/-- C7, counterexample: for the empty batch of `CreateBatch()` the "operations" value
is the byte slice `{"Operations":[]}` and the wire body is
`{"operations":"eyJPcGVyYXRpb25zIjpbXX0="}`, not `{"operations":"[]"}`, the JSON text
of the operation array embedded as a string. -/
theorem CreateBatch_envelope_is_not_array_text :
    batchEnvelope CreateBatch
      = Except.ok (GoValue.fields [("operations".toList,
          GoValue.bytes "\x7b\"Operations\":[]\x7d".toList)])
    ∧ (batchEnvelope CreateBatch).bind Encode
      = Except.ok "\x7b\"operations\":\"eyJPcGVyYXRpb25zIjpbXX0=\"\x7d\n".toList
    ∧ (batchEnvelope CreateBatch).bind Encode
      ≠ Except.ok ("\x7b\"operations\":".toList ++ encodeString "[]".toList ++ "\x7d\n".toList) :=
  ⟨rfl, by decide, by decide⟩

/-! ### The request handed to the transport -/

theorem Sprintf_two_strings (a b : GoString) :
    Sprintf "%s%s".toList [FmtArg.str a, FmtArg.str b] = a ++ b := by
  simp [Sprintf]

theorem NewClient_APIKey (D : HTTPClient) (key : GoString) (h : Option HTTPClient) (c : Client)
    (hc : NewClient D key h = Except.ok c) : c.APIKey = key := by
  unfold NewClient at hc
  by_cases hl : (Split '-' key).length ≠ 2
  · rw [if_pos hl] at hc; cases hc
  · rw [if_neg hl] at hc
    injection hc with hc
    rw [← hc]

/-- C9, as amended: for every client built by `NewClient` from the credential `key`
and every call `Do(method, path, body)` whose body encodes, whose client has a
non-nil `BaseURL`, and whose method and URL `http.NewRequest` accepts, the one
request handed to the transport has the given method (GET when the given method is
empty), the URL obtained by parsing the base endpoint string followed by `path`
verbatim (with an empty port dropped from the host), and the Basic `Authorization`
header of the empty username and `key` as password. -/
theorem Do_hands_request_to_transport (D : HTTPClient) (key : GoString)
    (h : Option HTTPClient) (c : Client) (method path : GoString) (body : Option GoValue)
    (buf : Option GoString) (base u : URL)
    (hc : NewClient D key h = Except.ok c)
    (hbuf : encodeBody body = Except.ok buf)
    (hbase : c.BaseURL = some base)
    (hm : validMethod (if method = [] then "GET".toList else method) = true)
    (hu : Parse (base.String ++ path) = Except.ok u) :
    c.buildRequest method path body = some (Except.ok
      { Method := if method = [] then "GET".toList else method,
        URL := { u with Host := removeEmptyPort u.Host },
        Host := removeEmptyPort u.Host,
        Header := [("Authorization".toList, "Basic ".toList ++ base64Encode (':' :: key))],
        Body := buf })
    ∧ c.Do method path body = some (finishDo (c.client
      { Method := if method = [] then "GET".toList else method,
        URL := { u with Host := removeEmptyPort u.Host },
        Host := removeEmptyPort u.Host,
        Header := [("Authorization".toList, "Basic ".toList ++ base64Encode (':' :: key))],
        Body := buf })) := by
  have hreq : c.buildRequest method path body = some (Except.ok
      { Method := if method = [] then "GET".toList else method,
        URL := { u with Host := removeEmptyPort u.Host },
        Host := removeEmptyPort u.Host,
        Header := [("Authorization".toList, "Basic ".toList ++ base64Encode (':' :: key))],
        Body := buf }) := by
    simp only [Client.buildRequest, hbuf, hbase, Sprintf_two_strings, NewRequest, hm, hu,
      Request.SetBasicAuth, NewClient_APIKey D key h c hc]
    simp
  exact ⟨hreq, by simp only [Client.Do, hreq]⟩

/-- C9, witness: a POST with a body through the client for "xyz-us11". -/
theorem Do_hands_request_to_transport_witness :
    ∃ req, (sampleClient refusingTransport).buildRequest "POST".toList
        "/lists/abc/members/".toList (some (GoValue.fields [("status".toList,
          GoValue.string "subscribed".toList)])) = some (Except.ok req)
      ∧ req.Method = "POST".toList
      ∧ req.URL.String = "https://us11.api.mailchimp.com/3.0/lists/abc/members/".toList
      ∧ req.Header = [("Authorization".toList, "Basic Onh5ei11czEx".toList)]
      ∧ req.Body = some "\x7b\"status\":\"subscribed\"\x7d\n".toList :=
  ⟨_, (Do_hands_request_to_transport refusingTransport "xyz-us11".toList
      (some refusingTransport) (sampleClient refusingTransport) "POST".toList
      "/lists/abc/members/".toList (some (GoValue.fields [("status".toList,
          GoValue.string "subscribed".toList)])) (some "\x7b\"status\":\"subscribed\"\x7d\n".toList)
      { Scheme := "https".toList, Host := "us11.api.mailchimp.com".toList,
        Path := "/3.0".toList }
      { Scheme := "https".toList, Host := "us11.api.mailchimp.com".toList,
        Path := "/3.0/lists/abc/members/".toList }
      rfl rfl rfl (by decide) rfl).1, by decide, by decide, by decide, by decide⟩

/-- C9, counterexample: through the client `NewClient` builds for "xyz-us11", a call
with the empty method hands the transport a request with method GET, and a call
with path "/a b" hands it a URL that renders with "%20", not the concatenation; for
the credential "k- " the client has a nil `BaseURL` and the call panics before any
request exists. -/
theorem Do_request_differs_from_arguments :
    NewClient refusingTransport "xyz-us11".toList none
        = Except.ok (sampleClient refusingTransport)
    ∧ (∃ req, (sampleClient refusingTransport).buildRequest [] "/lists".toList none
          = some (Except.ok req)
        ∧ req.Method = "GET".toList ∧ req.Method ≠ [])
    ∧ (∃ req, (sampleClient refusingTransport).buildRequest "GET".toList "/a b".toList none
          = some (Except.ok req)
        ∧ req.URL.String = "https://us11.api.mailchimp.com/3.0/a%20b".toList
        ∧ req.URL.String ≠ "https://us11.api.mailchimp.com/3.0".toList ++ "/a b".toList)
    ∧ (∃ c, NewClient refusingTransport "k- ".toList none = Except.ok c
        ∧ c.buildRequest "GET".toList "/lists".toList none = none
        ∧ c.Do "GET".toList "/lists".toList none = none) :=
  ⟨rfl, ⟨_, rfl, by decide, by decide⟩, ⟨_, rfl, by decide, by decide⟩, ⟨_, rfl, rfl, rfl⟩⟩

/-! ### The base endpoint of a well-formed credential -/


theorem regionByte_facts (c : Char) (h : regionByte c = true) :
    32 ≤ c.toNat ∧ c.toNat < 127 ∧ shouldEscape c Encoding.encodeHost = false
    ∧ c ≠ ':' ∧ c ≠ '[' ∧ c ≠ '#' ∧ c ≠ '?' ∧ c ≠ '/' ∧ c ≠ '@' ∧ c ≠ '%' := by
  have h' := h
  simp only [regionByte, Bool.and_eq_true, decide_eq_true_eq, Bool.not_eq_true',
    decide_eq_false_iff_not] at h'
  obtain ⟨⟨⟨⟨h1, h2⟩, h3⟩, h4⟩, h5⟩ := h'
  refine ⟨h1, h2, h3, h4, h5, ?_, ?_, ?_, ?_, ?_⟩ <;>
    (intro hc; subst hc; revert h; decide)

theorem cutByte_not_mem (sep : Char) (s : GoString) (h : sep ∉ s) :
    cutByte sep s = (s, [], false) := by
  induction s with
  | nil => rfl
  | cons c cs ih =>
    have hc : c ≠ sep := fun e => h (by simp [e])
    have hcs : sep ∉ cs := fun e => h (by simp [e])
    simp [cutByte, hc, ih hcs]

theorem indexByte_append (sep : Char) (s t : GoString) (h : sep ∉ s) :
    indexByte sep (s ++ sep :: t) = some s.length := by
  induction s with
  | nil => simp [indexByte]
  | cons c cs ih =>
    have hc : c ≠ sep := fun e => h (by simp [e])
    have hcs : sep ∉ cs := fun e => h (by simp [e])
    simp [indexByte, hc, ih hcs]

theorem lastIndexByte_not_mem (sep : Char) (s : GoString) (h : sep ∉ s) :
    lastIndexByte sep s = none := by
  induction s with
  | nil => rfl
  | cons c cs ih =>
    have hc : c ≠ sep := fun e => h (by simp [e])
    have hcs : sep ∉ cs := fun e => h (by simp [e])
    simp [lastIndexByte, hc, ih hcs]

theorem unescapeCheck_host (s : GoString) (h : ∀ c ∈ s, regionByte c = true) :
    unescapeCheck Encoding.encodeHost s = true := by
  induction s with
  | nil => rfl
  | cons c cs ih =>
    have f := regionByte_facts c (h c (by simp))
    have hcs := ih (fun d hd => h d (by simp [hd]))
    have hp : c ≠ '%' := f.2.2.2.2.2.2.2.2.2
    rw [unescapeCheck]
    · simp [f.2.2.1, hcs]
    · intro a b rest hh _
      exact hp hh
    · intro hh
      exact hp hh

theorem unescapeDecode_host (s : GoString) (h : ∀ c ∈ s, regionByte c = true) :
    unescapeDecode Encoding.encodeHost s = s := by
  induction s with
  | nil => rfl
  | cons c cs ih =>
    have f := regionByte_facts c (h c (by simp))
    have hcs := ih (fun d hd => h d (by simp [hd]))
    have hp : c ≠ '%' := f.2.2.2.2.2.2.2.2.2
    rw [unescapeDecode]
    · simp [hcs]
    · intro a b rest hh _
      exact hp hh

theorem escape_cons (c : Char) (cs : GoString) (mode : Encoding) :
    escape (c :: cs) mode = escape [c] mode ++ escape cs mode := by
  simp [escape, List.flatMap_cons]

theorem escape_host (s : GoString) (h : ∀ c ∈ s, regionByte c = true) :
    escape s Encoding.encodeHost = s := by
  induction s with
  | nil => rfl
  | cons c cs ih =>
    have f := regionByte_facts c (h c (by simp))
    rw [escape_cons, ih (fun d hd => h d (by simp [hd]))]
    simp [escape, f.2.2.1]

theorem any_ctl_false (s : GoString) (h : ∀ c ∈ s, regionByte c = true) :
    stringContainsCTLByte s = false := by
  unfold stringContainsCTLByte
  rw [List.any_eq_false]
  intro c hc
  have f := regionByte_facts c (h c hc)
  simp
  omega

theorem parseHost_region (host : GoString) (h : ∀ c ∈ host, regionByte c = true) :
    parseHost host = Except.ok host := by
  have hb : ['['].isPrefixOf host = false := by
    cases host with
    | nil => rfl
    | cons c cs =>
      have f := regionByte_facts c (h c (by simp))
      have : ('[' == c) = false := by simpa using fun e => f.2.2.2.2.1 e.symm
      simp [List.isPrefixOf, this]
  have hcolon : lastIndexByte ':' host = none :=
    lastIndexByte_not_mem _ _ (fun hm => (regionByte_facts _ (h _ hm)).2.2.2.1 rfl)
  simp only [parseHost, hb, hcolon, unescape, unescapeCheck_host host h,
    unescapeDecode_host host h]
  simp

theorem parseAuthority_region (host : GoString) (h : ∀ c ∈ host, regionByte c = true) :
    parseAuthority host = Except.ok (none, host) := by
  have hat : lastIndexByte '@' host = none :=
    lastIndexByte_not_mem _ _ (fun hm => (regionByte_facts _ (h _ hm)).2.2.2.2.2.2.2.2.1 rfl)
  simp only [parseAuthority, hat, parseHost_region host h]
  rfl


theorem getScheme_https (rest : GoString) :
    getScheme ('h' :: 't' :: 't' :: 'p' :: 's' :: ':' :: rest)
      = Except.ok ("https".toList, rest) := rfl

theorem setPath_v3 (u : URL) :
    URL.setPath u "/3.0".toList = Except.ok { u with Path := "/3.0".toList, RawPath := [] } := rfl

theorem countByte_not_mem (sep : Char) (s : GoString) (h : sep ∉ s) : countByte sep s = 0 := by
  induction s with
  | nil => rfl
  | cons c cs ih =>
    have hc : c ≠ sep := fun e => h (by simp [e])
    have hcs : sep ∉ cs := fun e => h (by simp [e])
    simp [countByte, hc, ih hcs]

theorem splitQuery_not_mem (rest : GoString) (h : '?' ∉ rest) :
    splitQuery rest = (false, rest, []) := by
  simp [splitQuery, countByte_not_mem _ _ h, cutByte_not_mem _ _ h]

theorem splitAuthority_append (host t : GoString) (h : '/' ∉ host) :
    splitAuthority (host ++ '/' :: t) = (host, '/' :: t) := by
  simp [splitAuthority, indexByte_append _ _ _ h]

theorem parseRest_region (host : GoString) (h : ∀ c ∈ host, regionByte c = true) :
    parseRest { Scheme := "https".toList } ('/' :: '/' :: (host ++ "/3.0".toList))
      = Except.ok { Scheme := "https".toList, Host := host, Path := "/3.0".toList } := by
  have hslash : '/' ∉ host := fun hm => (regionByte_facts _ (h _ hm)).2.2.2.2.2.2.2.1 rfl
  have hsp : splitAuthority (host ++ "/3.0".toList) = (host, "/3.0".toList) :=
    splitAuthority_append host "3.0".toList hslash
  unfold parseRest
  simp only [List.isPrefixOf, beq_self_eq_true, Bool.true_and, Bool.not_true, Bool.false_and,
    List.drop_succ_cons, List.drop_zero, hsp, parseAuthority_region host h]
  rfl

theorem parseNoFragment_region (host : GoString) (h : ∀ c ∈ host, regionByte c = true) :
    parseNoFragment ('h' :: 't' :: 't' :: 'p' :: 's' :: ':' :: '/' :: '/' ::
        (host ++ "/3.0".toList))
      = Except.ok { Scheme := "https".toList, Host := host, Path := "/3.0".toList } := by
  have hctl : stringContainsCTLByte ('h' :: 't' :: 't' :: 'p' :: 's' :: ':' :: '/' :: '/' ::
        (host ++ "/3.0".toList)) = false := by
    have := any_ctl_false host h
    unfold stringContainsCTLByte at this ⊢
    simp [List.any_cons, List.any_append, this]
  have hq : '?' ∉ '/' :: '/' :: (host ++ "/3.0".toList) := by
    simp only [List.mem_cons, List.mem_append, not_or]
    refine ⟨by decide, by decide, fun hm => (regionByte_facts _ (h _ hm)).2.2.2.2.2.2.1 rfl, ?_⟩
    decide
  unfold parseNoFragment
  rw [hctl]
  have hl : toLowerASCII "https".toList = "https".toList := by decide
  simp only [getScheme_https, bind, Except.bind, splitQuery_not_mem _ hq, hl]
  have := parseRest_region host h
  simpa using this

theorem Parse_region (host : GoString) (h : ∀ c ∈ host, regionByte c = true) :
    Parse ('h' :: 't' :: 't' :: 'p' :: 's' :: ':' :: '/' :: '/' :: (host ++ "/3.0".toList))
      = Except.ok { Scheme := "https".toList, Host := host, Path := "/3.0".toList } := by
  have hh : '#' ∉ 'h' :: 't' :: 't' :: 'p' :: 's' :: ':' :: '/' :: '/' ::
      (host ++ "/3.0".toList) := by
    simp only [List.mem_cons, List.mem_append, not_or]
    refine ⟨by decide, by decide, by decide, by decide, by decide, by decide, by decide,
      by decide, fun hm => (regionByte_facts _ (h _ hm)).2.2.2.2.2.1 rfl, ?_⟩
    decide
  unfold Parse
  simp only [cutByte_not_mem _ _ hh, parseNoFragment_region host h, bind, Except.bind]
  rfl

theorem String_region (host : GoString) (h : ∀ c ∈ host, regionByte c = true)
    (hne : host ≠ []) :
    URL.String { Scheme := "https".toList, Host := host, Path := "/3.0".toList }
      = 'h' :: 't' :: 't' :: 'p' :: 's' :: ':' :: '/' :: '/' :: (host ++ "/3.0".toList) := by
  have hp : URL.EscapedPath { Scheme := "https".toList, Host := host, Path := "/3.0".toList }
      = "/3.0".toList := rfl
  simp only [URL.String, URL.authorityString, hp, escape_host host h]
  simp [hne]


theorem Split_not_mem (sep : Char) (s : GoString) (h : sep ∉ s) : Split sep s = [s] := by
  induction s with
  | nil => rfl
  | cons c cs ih =>
    have hc : c ≠ sep := fun e => h (by simp [e])
    have hcs : sep ∉ cs := fun e => h (by simp [e])
    simp [Split, hc, ih hcs]

theorem Split_append (sep : Char) (k t : GoString) (h : sep ∉ k) :
    Split sep (k ++ sep :: t) = k :: Split sep t := by
  induction k with
  | nil => simp [Split]
  | cons c cs ih =>
    have hc : c ≠ sep := fun e => h (by simp [e])
    have hcs : sep ∉ cs := fun e => h (by simp [e])
    simp [Split, hc, ih hcs]

theorem Sprintf_endpoint (dc : GoString) :
    Sprintf "https://%s.api.mailchimp.com/3.0".toList [FmtArg.str dc]
      = 'h' :: 't' :: 't' :: 'p' :: 's' :: ':' :: '/' :: '/' ::
          ((dc ++ ".api.mailchimp.com".toList) ++ "/3.0".toList) := by
  simp [Sprintf]

/-- C2, as amended: for every credential `k ++ "-" ++ r` where `k` and `r` are
non-empty and contain no `-`, and every byte of `r` is one that `net/url` accepts in a
host name and writes back unchanged, `NewClient` returns a nil error and a client
whose APIKey is the full credential, whose DC is `r`, whose base endpoint has the
host `r ++ ".api.mailchimp.com"` and renders as
`"https://" ++ r ++ ".api.mailchimp.com/3.0"`. -/
theorem NewClient_region_endpoint (D : HTTPClient) (k r : GoString) (h : Option HTTPClient)
    (_hk : k ≠ []) (_hr : r ≠ []) (hkd : '-' ∉ k) (hrd : '-' ∉ r)
    (hsafe : ∀ c ∈ r, regionByte c = true) :
    ∃ c, NewClient D (k ++ '-' :: r) h = Except.ok c
      ∧ c.APIKey = k ++ '-' :: r
      ∧ c.DC = r
      ∧ c.BaseURL.map (fun u => u.Host) = some (r ++ ".api.mailchimp.com".toList)
      ∧ c.BaseURL.map URL.String
          = some ("https://".toList ++ r ++ ".api.mailchimp.com/3.0".toList) := by
  have hsplit : Split '-' (k ++ '-' :: r) = [k, r] := by
    rw [Split_append _ _ _ hkd, Split_not_mem _ _ hrd]
  have hsuffix : ∀ c ∈ ".api.mailchimp.com".toList, regionByte c = true := by decide
  have hhost : ∀ c ∈ r ++ ".api.mailchimp.com".toList, regionByte c = true := by
    intro c hc
    rcases List.mem_append.mp hc with h1 | h1
    · exact hsafe c h1
    · exact hsuffix c h1
  have hne : r ++ ".api.mailchimp.com".toList ≠ [] := by simp
  have hN : NewClient D (k ++ '-' :: r) h = Except.ok
      { APIKey := k ++ '-' :: r,
        client := (match h with
          | none => D
          | some t => t),
        DC := r,
        BaseURL := some { Scheme := "https".toList, Host := r ++ ".api.mailchimp.com".toList,
                          Path := "/3.0".toList } } := by
    unfold NewClient
    rw [hsplit, if_neg (by simp)]
    simp only [List.getD_cons_succ, List.getD_cons_zero, Sprintf_endpoint,
      Parse_region _ hhost, Except.toOption]
  refine ⟨_, hN, rfl, rfl, rfl, ?_⟩
  simp only [Option.map_some', String_region _ hhost hne]
  simp

/-- C2, witness: the credential "xyz-us11". -/
theorem NewClient_region_endpoint_witness :
    ∃ c, NewClient refusingTransport "xyz-us11".toList none = Except.ok c
      ∧ c.APIKey = "xyz-us11".toList
      ∧ c.DC = "us11".toList
      ∧ c.BaseURL.map (fun u => u.Host) = some "us11.api.mailchimp.com".toList
      ∧ c.BaseURL.map URL.String = some "https://us11.api.mailchimp.com/3.0".toList :=
  NewClient_region_endpoint refusingTransport "xyz".toList "us11".toList none
    (by decide) (by decide) (by decide) (by decide) (by decide)

/-- C2, counterexample: for the credential "k- " (region a single space) `NewClient`
returns a client whose `BaseURL` is nil, so no endpoint is rendered; for "k-a/b" the
client's base endpoint has the host "a", not a host that contains the region. -/
theorem NewClient_region_breaks_endpoint :
    (∃ c, NewClient refusingTransport ("k".toList ++ '-' :: " ".toList) none = Except.ok c
        ∧ c.DC = " ".toList ∧ c.BaseURL = none)
    ∧ (∃ c, NewClient refusingTransport ("k".toList ++ '-' :: "a/b".toList) none = Except.ok c
        ∧ c.DC = "a/b".toList
        ∧ c.BaseURL.map (fun u => u.Host) = some "a".toList) :=
  ⟨⟨_, rfl, rfl, rfl⟩, ⟨_, rfl, rfl, rfl⟩⟩

end Mailchimp
